import Mathlib

/-!
Verification of the BlobBet game server (src/server.js) against its
natural-language specification.

The server is embedded shallowly: JS numbers are modelled as exact
rationals (every IEEE double is a rational; float rounding is idealised
away), the process-wide Math.random stream is an explicit parameter
`rng : ℕ → ℚ` together with a cursor counting consumed draws, JS `Map`s
are association lists in insertion order, and the socket handlers and the
setInterval game loop are pure state-transition functions.

Two collision conditions in the source compare squared distances against
squares of expressions containing Math.sqrt.  Those literal conditions
are stated as `Prop`s over ℝ (`pelletCondR`, `absorbCondR`) and the
executable passes use algebraically equivalent rational tests
(`pelletCondB`, `absorbCondB`); the equivalences are proved in
`pelletCondB_iff` and `absorbCondB_iff`.
-/

namespace Blobbet

/-! ### World constants (src/server.js, "Game config") -/

def W : ℚ := 3000
def H : ℚ := 3000

/-- TICK = 1000/12 ms; the integrator multiplies velocities by
TICK/1000 = 1/12 s. -/
def dt : ℚ := 1 / 12

def BASE_SPEED : ℚ := 220
def FRICTION : ℚ := 9 / 10
def PELLET_COUNT : ℕ := 400
def PELLET_VALUE : ℚ := 5
def START_MASS : ℚ := 120
def ROOM_CAP : ℕ := 24
def AOI_RADIUS : ℚ := 900

/-- `rand(a,b) = Math.random()*(b-a)+a`, with the draw `u` made explicit. -/
def randIn (a b u : ℚ) : ℚ := u * (b - a) + a

/-- `clamp(v,a,b) = Math.max(a, Math.min(b, v))`. -/
def clamp (v a b : ℚ) : ℚ := max a (min b v)

/-! ### Data model -/

/-- A pellet.  `pid` holds the raw Math.random draw backing the id
(the JS renders it as `draw.toString(36).slice(2)`; no behaviour depends
on the rendering, only on the draw). -/
structure Pellet where
  pid : ℚ
  x : ℚ
  y : ℚ
deriving DecidableEq, Repr

structure Player where
  id : String
  name : String
  x : ℚ
  y : ℚ
  vx : ℚ
  vy : ℚ
  mass : ℚ
  mode : String
  roomId : String
  lastInputAt : ℤ
deriving DecidableEq, Repr

/-- A room exactly as the source builds it:
`{ id, players: new Map(), pellets: spawnPellets() }`.
There is no mode, state, seed, safe-zone or timestamp field. -/
structure Room where
  id : String
  players : List (String × Player)
  pellets : List Pellet
deriving DecidableEq, Repr

/-- Whole-process state: the `rooms` map, the per-socket closure variable
`room` (modelled as socket id → joined room id), and the cursor into the
Math.random stream. -/
structure ServerState where
  rooms : List (String × Room)
  conns : List (String × String)
  ctr : ℕ
deriving DecidableEq, Repr

/-! ### JS Map operations on association lists (insertion order) -/

def mlookup (k : String) : List (String × β) → Option β
  | [] => none
  | e :: rest => if e.1 = k then some e.2 else mlookup k rest

/-- `Map.set`: replace the (unique) binding in place, else append. -/
def mapSet (k : String) (v : β) : List (String × β) → List (String × β)
  | [] => [(k, v)]
  | e :: rest => if e.1 = k then (k, v) :: rest else e :: mapSet k v rest

/-- `Map.delete`: drop the binding for `k` (keys are unique in a JS Map). -/
def mapDelete (k : String) (l : List (String × β)) : List (String × β) :=
  l.filter (fun e => decide (e.1 ≠ k))

/-! ### Pellet generation (spawnPellets) -/

/-- One pellet literal: `{ id: Math.random()..., x: Math.floor(rand(40, W-40)),
y: Math.floor(rand(40, H-40)) }`, consuming three consecutive draws. -/
def mkPelletAt (rng : ℕ → ℚ) (k : ℕ) : Pellet :=
  ⟨rng k, (⌊randIn 40 (W - 40) (rng (k + 1))⌋ : ℤ), (⌊randIn 40 (H - 40) (rng (k + 2))⌋ : ℤ)⟩

/-- `spawnPellets()`: `Array.from({length: PELLET_COUNT}, () => ...)`.
The generator takes no seed; it consumes `3 * PELLET_COUNT` draws from the
process-wide Math.random stream starting at cursor `k`. -/
def spawnPellets (rng : ℕ → ℚ) (k : ℕ) : List Pellet × ℕ :=
  (((List.range PELLET_COUNT).map fun n => mkPelletAt rng (k + 3 * n)), k + 3 * PELLET_COUNT)

/-! ### Room assignment (getOrCreateRoomForJoin) and startup -/

/-- `getOrCreateRoomForJoin()`: scan `rooms.values()` in insertion order and
return the first room with `players.size < ROOM_CAP`; otherwise create
`room-${rooms.size + 1}` with fresh pellets, register it and return it.
The function takes no mode argument. -/
def getOrCreateRoomForJoin (rng : ℕ → ℚ) (rooms : List (String × Room)) (k : ℕ) :
    Room × List (String × Room) × ℕ :=
  match rooms.find? (fun e => decide (e.2.players.length < ROOM_CAP)) with
  | some e => (e.2, rooms, k)
  | none =>
    let roomId := "room-" ++ toString (rooms.length + 1)
    let sp := spawnPellets rng k
    let room : Room := ⟨roomId, [], sp.1⟩
    (room, mapSet roomId room rooms, sp.2)

/-- Startup: `rooms.set('room-1', { id: 'room-1', players: new Map(),
pellets: spawnPellets() })`; the pellet spawn consumes the first draws of
the process random stream. -/
def initState (rng : ℕ → ℚ) : ServerState :=
  ⟨[("room-1", ⟨"room-1", [], (spawnPellets rng 0).1⟩)], [], (spawnPellets rng 0).2⟩

/-! ### Socket handlers -/

/-- `socket.on('join')`: assign a room, build the player record
(`name = (name || 'Blob').slice(0,12)`, spawn position
`Math.floor(rand(200, W-200))`, `mass = START_MASS`,
`mode = mode || 'free'`, `lastInputAt = Date.now()`), insert it under the
socket id, and remember the room in the socket's closure variable. -/
def joinFn (rng : ℕ → ℚ) (s : ServerState) (sock name mode : String) (now : ℤ) :
    ServerState :=
  let g := getOrCreateRoomForJoin rng s.rooms s.ctr
  let room := g.1
  let k := g.2.2
  let p : Player :=
    { id := sock
      name := (if name = "" then "Blob" else name).take 12
      x := ((⌊randIn 200 (W - 200) (rng k)⌋ : ℤ) : ℚ)
      y := ((⌊randIn 200 (H - 200) (rng (k + 1))⌋ : ℤ) : ℚ)
      vx := 0
      vy := 0
      mass := START_MASS
      mode := if mode = "" then "free" else mode
      roomId := room.id
      lastInputAt := now }
  ⟨mapSet room.id { room with players := mapSet sock p room.players } g.2.1,
   mapSet sock room.id s.conns, k + 2⟩

/-- `socket.on('input')`: if the socket has joined a room and still has a
player there, overwrite the velocity and `lastInputAt`.  The JS computes
`p.vx = (Number(inp.vx)||0) * BASE_SPEED / Math.pow(p.mass/100, 0.25)`;
the scaling factor is a float (hence some rational), so the embedding
takes the two post-scaling components as the step's parameters `vx vy`,
ranging over all rationals.  Mass, position and membership are untouched,
which is all any claim observes of this handler. -/
def inputFn (s : ServerState) (sock : String) (vx vy : ℚ) (now : ℤ) : ServerState :=
  match mlookup sock s.conns with
  | none => s
  | some rid =>
    match mlookup rid s.rooms with
    | none => s
    | some room =>
      match mlookup sock room.players with
      | none => s
      | some p =>
        { s with
          rooms := mapSet rid
            { room with players := mapSet sock { p with vx := vx, vy := vy, lastInputAt := now } room.players }
            s.rooms }

/-- `socket.on('disconnect')`: remove the session from its joined room. -/
def disconnectFn (s : ServerState) (sock : String) : ServerState :=
  match mlookup sock s.conns with
  | none => s
  | some rid =>
    match mlookup rid s.rooms with
    | none => s
    | some room =>
      { s with rooms := mapSet rid { room with players := mapDelete sock room.players } s.rooms }

/-! ### Game loop: physics -/

/-- One player's integration step: `p.x += p.vx * (TICK/1000)` (same for y),
`p.vx *= FRICTION` (same for vy), then clamp positions to `[10, W-10]`
and `[10, H-10]`. -/
def physStep (p : Player) : Player :=
  { p with
    x := clamp (p.x + p.vx * dt) 10 (W - 10)
    y := clamp (p.y + p.vy * dt) 10 (H - 10)
    vx := p.vx * FRICTION
    vy := p.vy * FRICTION }

def physPass (ps : List (String × Player)) : List (String × Player) :=
  ps.map fun e => (e.1, physStep e.2)

/-! ### Game loop: pellet consumption and replenishment -/

/-- Literal consumption test of the source:
`dx*dx + dy*dy < (r(p.mass) + 6)^2` with `r = Math.sqrt`. -/
def pelletCondR (m d2 : ℚ) : Prop :=
  (d2 : ℝ) < (Real.sqrt (m : ℝ) + 6) ^ 2

/-- Executable rational form of `pelletCondR` (equivalence:
`pelletCondB_iff`): writing `T = d2 - m - 36`, the test holds iff
`T < 0` or `T^2 < 144*m`. -/
def pelletCondB (m d2 : ℚ) : Bool :=
  decide (d2 - m - 36 < 0) || decide ((d2 - m - 36) ^ 2 < 144 * m)

def pelletHit (p : Player) (pe : Pellet) : Bool :=
  pelletCondB p.mass ((pe.x - p.x) ^ 2 + (pe.y - p.y) ^ 2)

/-- One player's scan over the pellet array.  The JS iterates indices from
the end, splicing out each hit pellet and adding `PELLET_VALUE` to the
mass; `rr = r(p.mass)` is computed once before the scan, so every pellet is
tested against the same pre-scan mass, hit pellets are exactly the removed
ones, and the surviving pellets keep their relative order. -/
def eatOne (pls : List Pellet) (p : Player) : Player × List Pellet :=
  ({ p with mass := p.mass + PELLET_VALUE * (pls.countP (fun pe => pelletHit p pe) : ℕ) },
   pls.filter fun pe => !pelletHit p pe)

/-- The consumption pass: players in map insertion order, each scanning the
pellet collection left by the previous one. -/
def pelletPass : List (String × Player) → List Pellet → List (String × Player) × List Pellet
  | [], pls => ([], pls)
  | e :: rest, pls =>
    let r1 := eatOne pls e.2
    let r2 := pelletPass rest r1.2
    ((e.1, r1.1) :: r2.1, r2.2)

/-- `while (room.pellets.length < PELLET_COUNT) room.pellets.push(...)`. -/
def replenish (rng : ℕ → ℚ) (pls : List Pellet) (k : ℕ) : List Pellet × ℕ :=
  if pls.length < PELLET_COUNT then
    replenish rng (pls ++ [mkPelletAt rng k]) (k + 3)
  else (pls, k)
termination_by PELLET_COUNT - pls.length
decreasing_by simp only [List.length_append, List.length_singleton]; omega

/-! ### Game loop: PvP absorption -/

/-- Literal absorption test of the source:
`dist2 < Math.pow(r(big.mass) - r(small.mass)*0.35, 2)`. -/
def absorbCondR (mb ms d2 : ℚ) : Prop :=
  (d2 : ℝ) < (Real.sqrt (mb : ℝ) - (7 / 20) * Real.sqrt (ms : ℝ)) ^ 2

/-- Executable rational form of `absorbCondR` (equivalence:
`absorbCondB_iff`): writing `S = mb + (49/400)*ms - d2`, the test holds
iff `0 < S` and `(49/100)*(mb*ms) < S^2`. -/
def absorbCondB (mb ms d2 : ℚ) : Bool :=
  decide (0 < mb + (49 / 400) * ms - d2) &&
    decide ((49 / 100) * (mb * ms) < (mb + (49 / 400) * ms - d2) ^ 2)

/-- Ghost record of one resolved absorption: who absorbed whom and the
masses read and written at that moment (`bigAfter` is the value stored,
`big.mass + small.mass * 0.85`). -/
structure Absorption where
  big : String
  small : String
  bigBefore : ℚ
  smallBefore : ℚ
  bigAfter : ℚ
deriving DecidableEq, Repr

/-- In-place object mutation seen through the map: replace the value
stored under `k` when the key is present, and do nothing when it is
absent (the JS mutates an object that may no longer be in the Map; the
map itself never gains an entry from this).  Contrast `mapSet`, which
appends absent keys. -/
def mapAdjust (k : String) (v : β) (l : List (String × β)) : List (String × β) :=
  l.map fun e => if e.1 = k then (k, v) else e

/-- One inner-loop (`j`) iteration of the PvP scan.  The state carries
the OUTER player object `A` as the source caches it: `const A =
room.players.get(ids[i])` is bound once per outer iteration, so when A is
deleted from the map mid-inner-loop the loop keeps comparing and even
mutating the stale object.  `B = room.players.get(ids[j])` is re-fetched
live; a missing B or exactly equal masses skip the pair.  On absorption
`big.mass += small.mass * 0.85` mutates the shared object — reflected in
the cache when big is A, and in the map entry under big's key when that
key is still present (`mapAdjust`) — then the key `small.id` is deleted
(a no-op when small is the already-removed stale A) and a `ko` is
logged. -/
def pvpInner (ai : String) (st : Player × List (String × Player) × List Absorption)
    (bj : String) : Player × List (String × Player) × List Absorption :=
  match mlookup bj st.2.1 with
  | none => st
  | some B =>
    if st.1.mass = B.mass then st
    else
      let A := st.1
      let big := if B.mass < A.mass then A else B
      let small := if B.mass < A.mass then B else A
      let bigKey := if B.mass < A.mass then ai else bj
      let d2 := (small.x - big.x) ^ 2 + (small.y - big.y) ^ 2
      if absorbCondB big.mass small.mass d2 then
        let big' := { big with mass := big.mass + (17 / 20) * small.mass }
        ((if B.mass < A.mass then big' else A),
         mapDelete small.id (mapAdjust bigKey big' st.2.1),
         st.2.2 ++ [⟨big.id, small.id, big.mass, small.mass, big'.mass⟩])
      else st

/-- The outer (`i`) loop over the key snapshot: fetch A once (skip the
whole inner loop if the key is already gone), run the inner loop over
the remaining keys with A cached, then drop the cache (`const A` goes
out of scope) and continue. -/
def pvpOuter : List String → List (String × Player) × List Absorption →
    List (String × Player) × List Absorption
  | [], st => st
  | ai :: rest, st =>
    match mlookup ai st.1 with
    | none => pvpOuter rest st
    | some A =>
      let r := rest.foldl (pvpInner ai) (A, st.1, st.2)
      pvpOuter rest (r.2.1, r.2.2)

/-- The PvP pass: `ids = Array.from(room.players.keys())`, then the
nested `i < j` loops.  Returns the surviving players and the ghost
absorption log (the JS emits a `ko` per log entry). -/
def pvpPass (ps : List (String × Player)) : List (String × Player) × List Absorption :=
  pvpOuter (ps.map Prod.fst) (ps, [])

/-! ### Game loop: snapshots (AOI) -/

/-- The per-player projection sent in snapshots.  The JS payload also
carries `r: Math.sqrt(mass)`, a field derived from `mass`; it is omitted
here as redundant. -/
structure PlayerView where
  id : String
  name : String
  x : ℚ
  y : ℚ
  mass : ℚ
deriving DecidableEq, Repr

def playerView (p : Player) : PlayerView :=
  ⟨p.id, p.name, p.x, p.y, p.mass⟩

/-- The nearby-players view assembled for recipient `p` (map key `sid`):
every other entry of the room's player map within the inclusive squared
AOI radius, in map order.  There is no alive flag in the source: being in
the map is being alive (eliminated players are deleted from it). -/
def nearbyPlayersFor (ps : List (String × Player)) (sid : String) (p : Player) :
    List PlayerView :=
  ps.filterMap fun e =>
    if e.1 = sid then none
    else if (e.2.x - p.x) ^ 2 + (e.2.y - p.y) ^ 2 ≤ AOI_RADIUS ^ 2 then some (playerView e.2)
    else none

/-- `(counter++ % 2) === 0`: keep every second element, starting with the
first. -/
def everyOther : Bool → List Pellet → List Pellet
  | _, [] => []
  | true, a :: rest => a :: everyOther false rest
  | false, _ :: rest => everyOther true rest

/-- Nearby pellets for recipient `p`: the in-range pellets downsampled by
the shared counter (which only advances on in-range pellets). -/
def nearbyPelletsFor (pls : List Pellet) (p : Player) : List Pellet :=
  everyOther true
    (pls.filter fun pe => decide ((pe.x - p.x) ^ 2 + (pe.y - p.y) ^ 2 ≤ AOI_RADIUS ^ 2))

/-- Outbound messages of the game loop: `ko { by }` unicast to the absorbed
player, and the per-player `state` snapshot (whose JS payload also carries
the constant `ping: 0`). -/
inductive Event where
  | ko (toId : String) (byId : String)
  | state (toId : String) (you : PlayerView) (players : List PlayerView) (pellets : List Pellet)
deriving DecidableEq, Repr

def snapshotPass (ps : List (String × Player)) (pls : List Pellet) : List Event :=
  ps.map fun e =>
    Event.state e.1 (playerView e.2) (nearbyPlayersFor ps e.1 e.2) (nearbyPelletsFor pls e.2)

/-! ### Game loop: one room, one tick -/

structure TickResult where
  room : Room
  k : ℕ
  events : List Event

/-- One `setInterval` body iteration for one room: integrate, consume
pellets, replenish, resolve PvP (emitting `ko`s), then emit snapshots.
No clock is read anywhere in the loop. -/
def tickRoom (rng : ℕ → ℚ) (k : ℕ) (room : Room) : TickResult :=
  let ps1 := physPass room.players
  let pp := pelletPass ps1 room.pellets
  let rep := replenish rng pp.2 k
  let pv := pvpPass pp.1
  ⟨⟨room.id, pv.1, rep.1⟩, rep.2,
   (pv.2.map fun a => Event.ko a.small a.big) ++ snapshotPass pv.1 rep.1⟩

def tickRooms (rng : ℕ → ℚ) : List (String × Room) → ℕ → List (String × Room) × ℕ × List Event
  | [], k => ([], k, [])
  | e :: rest, k =>
    let t := tickRoom rng k e.2
    let r := tickRooms rng rest t.k
    ((e.1, t.room) :: r.1, r.2.1, t.events ++ r.2.2)

/-- One whole tick over all rooms. -/
def tickServer (rng : ℕ → ℚ) (s : ServerState) : ServerState × List Event :=
  let t := tickRooms rng s.rooms s.ctr
  (⟨t.1, s.conns, t.2.1⟩, t.2.2)

/-! ### Reachable process states -/

/-- States reachable from startup through the three socket events and the
game-loop tick, with all randomness drawn from the single stream `rng`. -/
inductive Reachable (rng : ℕ → ℚ) : ServerState → Prop
  | init : Reachable rng (initState rng)
  | join (s : ServerState) (sock name mode : String) (now : ℤ) :
      Reachable rng s → Reachable rng (joinFn rng s sock name mode now)
  | input (s : ServerState) (sock : String) (vx vy : ℚ) (now : ℤ) :
      Reachable rng s → Reachable rng (inputFn s sock vx vy now)
  | disconnect (s : ServerState) (sock : String) :
      Reachable rng s → Reachable rng (disconnectFn s sock)
  | tick (s : ServerState) :
      Reachable rng s → Reachable rng (tickServer rng s).1

/-! ### Helper definitions used by concrete scenarios -/

/-- The all-zeros random stream, used for concrete scenario states. -/
def rng0 : ℕ → ℚ := fun _ => 0

/-- Look a player up across the whole process state. -/
def playerIn (s : ServerState) (rid pid : String) : Option Player :=
  (mlookup rid s.rooms).bind fun r => mlookup pid r.players

/-- The ids the tick eliminated, read off the emitted `ko` events. -/
def koTargets (evs : List Event) : List String :=
  evs.filterMap fun e =>
    match e with
    | .ko t _ => some t
    | _ => none

/-! ### Concrete fixtures for scenario theorems -/

/-- A player record as `join` would build it, at a chosen position and mass. -/
def testPlayer (id : String) (x y m : ℚ) : Player :=
  ⟨id, id, x, y, 0, 0, m, "free", "room-1", 0⟩

/-- The constant-one-half random stream. -/
def rngHalf : ℕ → ℚ := fun _ => 1 / 2

/-- A stream equal to `rng0` on the first `3 * PELLET_COUNT` draws only. -/
def rngTail7 : ℕ → ℚ := fun n => if n < 3 * PELLET_COUNT then 0 else 7

/-- A stream whose startup pellet draws place pellet 0 at (200, 200)
(`⌊(4/73) * 2920 + 40⌋ = 200`) and everything else (including the join
spawn draws) at the low corner of each range. -/
def rngC6 : ℕ → ℚ := fun k => if k = 1 ∨ k = 2 then 4 / 73 else 0

/-- Twenty-four distinct socket ids. -/
def joinSocks : List String := (List.range 24).map fun n => "s" ++ toString n

/-- The process state after startup followed by 24 casual-mode joins on
distinct sockets: room-1 holds `ROOM_CAP` players. -/
def state24 : ServerState :=
  joinSocks.foldl (fun s sock => joinFn rng0 s sock "n" "casual" 0) (initState rng0)

/-- Startup with `rngC6`, then one join: the player spawns at (200, 200),
exactly on pellet 0. -/
def sC6a : ServerState := joinFn rngC6 (initState rngC6) "s1" "Ann" "casual" 0

/-- One tick later: the player has consumed pellet 0 (mass 125). -/
def sC6b : ServerState := (tickServer rngC6 sC6a).1

/-- A second `join` event on the same socket: the session record is
rebuilt from scratch. -/
def sC6c : ServerState := joinFn rngC6 sC6b "s1" "Ann" "casual" 0

/-- Startup with `rng0`, then one join at time 0. -/
def sC8a : ServerState := joinFn rng0 (initState rng0) "s1" "Ann" "free" 0

/-- The state after the next game-loop tick, whenever the scheduler fires
it (the loop reads no clock). -/
def sC8b : ServerState := (tickServer rng0 sC8a).1

/-- An empty room used to instantiate room-assignment statements. -/
def roomE : Room := ⟨"room-1", [], []⟩

/-- Three overlapping players of masses 120, 125, 130 (one fresh spawn
and two that each ate pellets, then moved together): the configuration
on which the stale outer reference makes player a absorbed twice. -/
def c1ps3 : List (String × Player) :=
  [("a", testPlayer "a" 0 0 120), ("b", testPlayer "b" 0 0 125),
   ("c", testPlayer "c" 0 0 130)]

/-- The three absorptions the PvP pass resolves on `c1ps3`: b absorbs a,
then c absorbs the stale a AGAIN, then c absorbs b. -/
def c1abs1 : Absorption := ⟨"b", "a", 125, 120, 227⟩

def c1abs2 : Absorption := ⟨"c", "a", 130, 120, 232⟩

def c1abs3 : Absorption := ⟨"c", "b", 232, 227, 8499 / 20⟩

/-- The pellet produced by an all-zero draw triple. -/
def pellet40 : Pellet := ⟨0, 40, 40⟩

/-- The pellet produced by the two 4/73 draws of `rngC6`: it sits at
(200, 200), exactly where the player will spawn. -/
def pelletC6 : Pellet := ⟨0, 200, 200⟩

/-- The session record the first `rngC6` join builds. -/
def pC6 : Player := ⟨"s1", "Ann", 200, 200, 0, 0, 120, "casual", "room-1", 0⟩

/-- The same session after one tick: pellet 0 was consumed (mass 125). -/
def pC6b : Player := ⟨"s1", "Ann", 200, 200, 0, 0, 125, "casual", "room-1", 0⟩

/-- The session record the `rng0` join of the AFK scenario builds. -/
def pC8 : Player := ⟨"s1", "Ann", 200, 200, 0, 0, 120, "free", "room-1", 0⟩

/-- Registry-scan helper used to state the amended room-assignment claim:
the first room in registry order with fewer than 24 players. -/
def firstOpenRoom : List (String × Room) → Option Room
  | [] => none
  | e :: rest => if e.2.players.length < 24 then some e.2 else firstOpenRoom rest

end Blobbet


namespace Blobbet

/-! ### Basic lemmas about the map operations -/

theorem mlookup_mapSet_self (k : String) (v : β) (l : List (String × β)) :
    mlookup k (mapSet k v l) = some v := by
  induction l with
  | nil => simp [mapSet, mlookup]
  | cons e rest ih =>
    by_cases h : e.1 = k
    · simp [mapSet, h, mlookup]
    · simp [mapSet, h, mlookup, ih]

theorem mlookup_mapSet_ne (k k' : String) (v : β) (l : List (String × β)) (h : k' ≠ k) :
    mlookup k' (mapSet k v l) = mlookup k' l := by
  induction l with
  | nil => simp [mapSet, mlookup, Ne.symm h]
  | cons e rest ih =>
    by_cases he : e.1 = k
    · simp [mapSet, he, mlookup, Ne.symm h]
    · by_cases he' : e.1 = k'
      · simp [mapSet, mlookup, he, he', h]
      · simp [mapSet, mlookup, he, he', ih]

theorem mlookup_mapDelete_self (k : String) (l : List (String × β)) :
    mlookup k (mapDelete k l) = none := by
  induction l with
  | nil => simp [mapDelete, mlookup]
  | cons e rest ih =>
    by_cases h : e.1 = k
    · simpa [mapDelete, h] using ih
    · simpa [mapDelete, mlookup, h] using ih

theorem mlookup_mapDelete_ne (k k' : String) (l : List (String × β)) (h : k' ≠ k) :
    mlookup k' (mapDelete k l) = mlookup k' l := by
  induction l with
  | nil => simp [mapDelete, mlookup]
  | cons e rest ih =>
    by_cases he : e.1 = k
    · simpa [mapDelete, mlookup, he, Ne.symm h] using ih
    · by_cases he' : e.1 = k'
      · simp [mapDelete, mlookup, he, he', h]
      · simpa [mapDelete, mlookup, he, he'] using ih

theorem mlookup_mem (k : String) (v : β) (l : List (String × β))
    (h : mlookup k l = some v) : (k, v) ∈ l := by
  induction l with
  | nil => simp [mlookup] at h
  | cons e rest ih =>
    rcases e with ⟨a, b⟩
    by_cases he : a = k
    · simp only [mlookup, he, if_pos] at h
      have hv : b = v := by injection h
      subst he
      subst hv
      exact List.mem_cons_self _ _
    · simp only [mlookup, he, if_neg, not_false_iff] at h
      exact List.mem_cons_of_mem _ (ih h)

theorem mem_mapSet (k : String) (v : β) (l : List (String × β)) (e : String × β)
    (h : e ∈ mapSet k v l) : e = (k, v) ∨ e ∈ l := by
  induction l with
  | nil => simpa [mapSet] using h
  | cons f rest ih =>
    by_cases hf : f.1 = k
    · simp only [mapSet, hf, if_pos] at h
      rcases List.mem_cons.1 h with h | h
      · exact Or.inl h
      · exact Or.inr (List.mem_cons_of_mem _ h)
    · simp only [mapSet, hf, if_neg, not_false_iff] at h
      rcases List.mem_cons.1 h with h | h
      · exact Or.inr (h ▸ List.mem_cons_self _ _)
      · rcases ih h with h | h
        · exact Or.inl h
        · exact Or.inr (List.mem_cons_of_mem _ h)

theorem mem_mapDelete (k : String) (l : List (String × β)) (e : String × β)
    (h : e ∈ mapDelete k l) : e ∈ l :=
  List.mem_of_mem_filter h

theorem length_mapSet_le (k : String) (v : β) (l : List (String × β)) :
    (mapSet k v l).length ≤ l.length + 1 := by
  induction l with
  | nil => simp [mapSet]
  | cons f rest ih =>
    by_cases hf : f.1 = k
    · simp [mapSet, hf]
    · simp only [mapSet, hf, if_neg, not_false_iff, List.length_cons]
      omega

theorem length_mapSet_of_mlookup (k : String) (v w : β) (l : List (String × β))
    (h : mlookup k l = some w) : (mapSet k v l).length = l.length := by
  induction l with
  | nil => simp [mlookup] at h
  | cons f rest ih =>
    by_cases hf : f.1 = k
    · simp [mapSet, hf]
    · simp only [mlookup, hf, if_neg, not_false_iff] at h
      simp [mapSet, hf, ih h]

theorem length_mapDelete_le (k : String) (l : List (String × β)) :
    (mapDelete k l).length ≤ l.length :=
  List.length_filter_le _ _

theorem length_spawnPellets (rng : ℕ → ℚ) (k : ℕ) :
    (spawnPellets rng k).1.length = PELLET_COUNT := by
  simp [spawnPellets]

/-! ### Equivalence of the executable collision tests with the literal
Math.sqrt conditions of the source -/

theorem lt_iff_sq_lt_sq (a b : ℝ) (ha : 0 ≤ a) (hb : 0 ≤ b) : a < b ↔ a ^ 2 < b ^ 2 := by
  constructor
  · intro h; nlinarith
  · intro h; nlinarith

theorem pelletCondB_iff (m d2 : ℚ) (hm : 0 ≤ m) :
    pelletCondB m d2 = true ↔ pelletCondR m d2 := by
  have hmR : (0 : ℝ) ≤ (m : ℝ) := by exact_mod_cast hm
  have hs : 0 ≤ Real.sqrt (m : ℝ) := Real.sqrt_nonneg _
  have hs2 : Real.sqrt (m : ℝ) ^ 2 = (m : ℝ) := Real.sq_sqrt hmR
  have hexp : (Real.sqrt (m : ℝ) + 6) ^ 2 = (m : ℝ) + 12 * Real.sqrt (m : ℝ) + 36 := by
    nlinarith [hs2]
  rw [pelletCondR, hexp]
  simp only [pelletCondB, Bool.or_eq_true, decide_eq_true_eq]
  constructor
  · rintro (hT | hT)
    · have hTR : (d2 : ℝ) - (m : ℝ) - 36 < 0 := by exact_mod_cast hT
      linarith
    · have hTR2 : ((d2 : ℝ) - (m : ℝ) - 36) ^ 2 < 144 * (m : ℝ) := by exact_mod_cast hT
      by_cases hT0 : (d2 : ℝ) - (m : ℝ) - 36 < 0
      · linarith
      · push_neg at hT0
        have h12 : (0 : ℝ) ≤ 12 * Real.sqrt (m : ℝ) := by linarith
        have hlt := (lt_iff_sq_lt_sq _ _ hT0 h12).2 (by nlinarith [hs2, hTR2])
        linarith
  · intro h
    by_cases hT0 : d2 - m - 36 < 0
    · exact Or.inl hT0
    · push_neg at hT0
      right
      have hTR : (0 : ℝ) ≤ (d2 : ℝ) - (m : ℝ) - 36 := by exact_mod_cast hT0
      have hlt : (d2 : ℝ) - (m : ℝ) - 36 < 12 * Real.sqrt (m : ℝ) := by linarith
      have h12 : (0 : ℝ) ≤ 12 * Real.sqrt (m : ℝ) := by linarith
      have hsq := (lt_iff_sq_lt_sq _ _ hTR h12).1 hlt
      have hfin : ((d2 : ℝ) - (m : ℝ) - 36) ^ 2 < 144 * (m : ℝ) := by nlinarith [hs2]
      exact_mod_cast hfin

theorem absorbCondB_iff (mb ms d2 : ℚ) (hb : 0 ≤ mb) (hs : 0 ≤ ms) :
    absorbCondB mb ms d2 = true ↔ absorbCondR mb ms d2 := by
  have hbR : (0 : ℝ) ≤ (mb : ℝ) := by exact_mod_cast hb
  have hsR : (0 : ℝ) ≤ (ms : ℝ) := by exact_mod_cast hs
  have ha0 : 0 ≤ Real.sqrt (mb : ℝ) := Real.sqrt_nonneg _
  have hb0 : 0 ≤ Real.sqrt (ms : ℝ) := Real.sqrt_nonneg _
  have ha2 : Real.sqrt (mb : ℝ) ^ 2 = (mb : ℝ) := Real.sq_sqrt hbR
  have hb2 : Real.sqrt (ms : ℝ) ^ 2 = (ms : ℝ) := Real.sq_sqrt hsR
  have hprod0 : 0 ≤ Real.sqrt (mb : ℝ) * Real.sqrt (ms : ℝ) := mul_nonneg ha0 hb0
  have hprod2 : (Real.sqrt (mb : ℝ) * Real.sqrt (ms : ℝ)) ^ 2 = (mb : ℝ) * (ms : ℝ) := by
    rw [mul_pow, ha2, hb2]
  have hexp : (Real.sqrt (mb : ℝ) - (7 / 20) * Real.sqrt (ms : ℝ)) ^ 2 =
      (mb : ℝ) + (49 / 400) * (ms : ℝ) -
        (7 / 10) * (Real.sqrt (mb : ℝ) * Real.sqrt (ms : ℝ)) := by
    nlinarith [ha2, hb2]
  rw [absorbCondR, hexp]
  simp only [absorbCondB, Bool.and_eq_true, decide_eq_true_eq]
  constructor
  · rintro ⟨hS, hSq⟩
    have hSR : (0 : ℝ) < (mb : ℝ) + (49 / 400) * (ms : ℝ) - (d2 : ℝ) := by
      have h0 : ((0 : ℚ) : ℝ) < ((mb + 49 / 400 * ms - d2 : ℚ) : ℝ) := by exact_mod_cast hS
      push_cast at h0
      linarith
    have hSqR : (49 / 100) * ((mb : ℝ) * (ms : ℝ)) <
        ((mb : ℝ) + (49 / 400) * (ms : ℝ) - (d2 : ℝ)) ^ 2 := by
      have h0 : ((49 / 100 * (mb * ms) : ℚ) : ℝ) <
          (((mb + 49 / 400 * ms - d2) ^ 2 : ℚ) : ℝ) := by exact_mod_cast hSq
      push_cast at h0
      linarith
    have h1 : (0 : ℝ) ≤ (7 / 10) * (Real.sqrt (mb : ℝ) * Real.sqrt (ms : ℝ)) := by
      linarith
    have hab := (lt_iff_sq_lt_sq _ _ h1 (le_of_lt hSR)).2 (by nlinarith [hprod2, hSqR])
    linarith
  · intro h
    have hab : (7 / 10) * (Real.sqrt (mb : ℝ) * Real.sqrt (ms : ℝ)) <
        (mb : ℝ) + (49 / 400) * (ms : ℝ) - (d2 : ℝ) := by linarith
    have h1 : (0 : ℝ) ≤ (7 / 10) * (Real.sqrt (mb : ℝ) * Real.sqrt (ms : ℝ)) := by
      linarith
    have hSR : (0 : ℝ) < (mb : ℝ) + (49 / 400) * (ms : ℝ) - (d2 : ℝ) :=
      lt_of_le_of_lt h1 hab
    constructor
    · have h0 : ((0 : ℚ) : ℝ) < ((mb + 49 / 400 * ms - d2 : ℚ) : ℝ) := by
        push_cast
        linarith
      exact_mod_cast h0
    · have hsq := (lt_iff_sq_lt_sq _ _ h1 (le_of_lt hSR)).1 hab
      have hfin : (49 / 100) * ((mb : ℝ) * (ms : ℝ)) <
          ((mb : ℝ) + (49 / 400) * (ms : ℝ) - (d2 : ℝ)) ^ 2 := by nlinarith [hprod2]
      have h0 : ((49 / 100 * (mb * ms) : ℚ) : ℝ) <
          (((mb + 49 / 400 * ms - d2) ^ 2 : ℚ) : ℝ) := by
        push_cast
        linarith
      exact_mod_cast h0

end Blobbet

namespace Blobbet

/-! ### Lemmas about `mapAdjust` (in-place mutation seen through the map) -/

theorem length_mapAdjust (k : String) (v : β) (l : List (String × β)) :
    (mapAdjust k v l).length = l.length :=
  List.length_map _ _

theorem mlookup_mapAdjust_self (k : String) (v : β) (l : List (String × β)) :
    mlookup k (mapAdjust k v l) = (mlookup k l).map fun _ => v := by
  induction l with
  | nil => simp [mapAdjust, mlookup]
  | cons e rest ih =>
    by_cases h : e.1 = k
    · simp [mapAdjust, mlookup, h]
    · simpa [mapAdjust, mlookup, h] using ih

theorem mlookup_mapAdjust_ne (k k' : String) (v : β) (l : List (String × β))
    (h : k' ≠ k) : mlookup k' (mapAdjust k v l) = mlookup k' l := by
  induction l with
  | nil => simp [mapAdjust, mlookup]
  | cons e rest ih =>
    by_cases he : e.1 = k
    · have hkk : ¬ (k = k') := fun hh => h hh.symm
      simpa [mapAdjust, mlookup, he, hkk] using ih
    · by_cases he' : e.1 = k'
      · simp [mapAdjust, mlookup, he, he', h]
      · simpa [mapAdjust, mlookup, he, he'] using ih

theorem mem_mapAdjust (k : String) (v : β) (l : List (String × β)) (e : String × β)
    (h : e ∈ mapAdjust k v l) : e = (k, v) ∨ e ∈ l := by
  rcases List.mem_map.1 h with ⟨e₀, he₀, heq⟩
  by_cases h0 : e₀.1 = k
  · left
    rw [← heq]
    simp [h0]
  · right
    rw [← heq]
    simpa [h0] using he₀

/-! ### Case analysis of one inner PvP iteration

The inner step either leaves the state alone, or resolves an absorption.
In the second case the winner is the cached outer player `A = st.1`
(when `B.mass < A.mass`) or the freshly fetched `B`; note that when the
stale `A` loses, `mapDelete A.id` can be a no-op (A's key may already be
gone from the map) while the `ko` is logged regardless. -/

theorem pvpInner_cases (ai : String)
    (st : Player × List (String × Player) × List Absorption) (bj : String) :
    pvpInner ai st bj = st ∨
    (∃ B : Player, mlookup bj st.2.1 = some B ∧ st.1.mass ≠ B.mass ∧
      B.mass < st.1.mass ∧
      pvpInner ai st bj =
        ({ st.1 with mass := st.1.mass + (17 / 20) * B.mass },
         mapDelete B.id
           (mapAdjust ai { st.1 with mass := st.1.mass + (17 / 20) * B.mass } st.2.1),
         st.2.2 ++ [⟨st.1.id, B.id, st.1.mass, B.mass,
           st.1.mass + (17 / 20) * B.mass⟩])) ∨
    (∃ B : Player, mlookup bj st.2.1 = some B ∧ st.1.mass ≠ B.mass ∧
      ¬ B.mass < st.1.mass ∧
      pvpInner ai st bj =
        (st.1,
         mapDelete st.1.id
           (mapAdjust bj { B with mass := B.mass + (17 / 20) * st.1.mass } st.2.1),
         st.2.2 ++ [⟨B.id, st.1.id, B.mass, st.1.mass,
           B.mass + (17 / 20) * st.1.mass⟩])) := by
  rcases hB : mlookup bj st.2.1 with _ | B
  · left
    simp [pvpInner, hB]
  · by_cases hne : st.1.mass = B.mass
    · left
      simp [pvpInner, hB, hne]
    · by_cases hba : B.mass < st.1.mass
      · by_cases hcond : absorbCondB st.1.mass B.mass
            ((B.x - st.1.x) ^ 2 + (B.y - st.1.y) ^ 2) = true
        · right; left
          refine ⟨B, rfl, hne, hba, ?_⟩
          simp [pvpInner, hB, hne, hba, hcond]
        · left
          simp [pvpInner, hB, hne, hba, hcond]
      · by_cases hcond : absorbCondB B.mass st.1.mass
            ((st.1.x - B.x) ^ 2 + (st.1.y - B.y) ^ 2) = true
        · right; right
          refine ⟨B, rfl, hne, hba, ?_⟩
          simp [pvpInner, hB, hne, hba, hcond]
        · left
          simp [pvpInner, hB, hne, hba, hcond]

/-! ### Per-step facts about the inner iteration -/

theorem pvpInner_length_le (ai : String)
    (st : Player × List (String × Player) × List Absorption) (bj : String) :
    (pvpInner ai st bj).2.1.length ≤ st.2.1.length := by
  rcases pvpInner_cases ai st bj with h | ⟨B, _, _, _, h⟩ | ⟨B, _, _, _, h⟩
  · rw [h]
  · rw [h]
    exact le_trans (length_mapDelete_le _ _) (le_of_eq (length_mapAdjust _ _ _))
  · rw [h]
    exact le_trans (length_mapDelete_le _ _) (le_of_eq (length_mapAdjust _ _ _))

theorem pvpInner_log_prefix (ai : String)
    (st : Player × List (String × Player) × List Absorption) (bj : String) :
    ∃ t, (pvpInner ai st bj).2.2 = st.2.2 ++ t := by
  rcases pvpInner_cases ai st bj with h | ⟨B, _, _, _, h⟩ | ⟨B, _, _, _, h⟩
  · refine ⟨[], ?_⟩
    rw [h, List.append_nil]
  · exact ⟨[⟨st.1.id, B.id, st.1.mass, B.mass, st.1.mass + (17 / 20) * B.mass⟩],
      by rw [h]⟩
  · exact ⟨[⟨B.id, st.1.id, B.mass, st.1.mass, B.mass + (17 / 20) * st.1.mass⟩],
      by rw [h]⟩

theorem pvpInner_mass_lb (c : ℚ) (hc : 0 ≤ c) (ai : String)
    (st : Player × List (String × Player) × List Absorption) (bj : String)
    (hm : ∀ e ∈ st.2.1, c ≤ e.2.mass) (hA : c ≤ st.1.mass) :
    (∀ e ∈ (pvpInner ai st bj).2.1, c ≤ e.2.mass) ∧
      c ≤ (pvpInner ai st bj).1.mass := by
  rcases pvpInner_cases ai st bj with h | ⟨B, hB, hne, hba, h⟩ | ⟨B, hB, hne, hba, h⟩
  · rw [h]
    exact ⟨hm, hA⟩
  · have hBm : c ≤ B.mass := hm _ (mlookup_mem _ _ _ hB)
    have h85 : (0 : ℚ) ≤ (17 / 20) * B.mass :=
      mul_nonneg (by norm_num) (le_trans hc hBm)
    rw [h]
    constructor
    · intro e he
      rcases mem_mapAdjust _ _ _ _ (mem_mapDelete _ _ _ he) with h1 | h1
      · rw [h1]
        show c ≤ st.1.mass + (17 / 20) * B.mass
        linarith
      · exact hm _ h1
    · show c ≤ st.1.mass + (17 / 20) * B.mass
      linarith
  · have hBm : c ≤ B.mass := hm _ (mlookup_mem _ _ _ hB)
    have h85 : (0 : ℚ) ≤ (17 / 20) * st.1.mass :=
      mul_nonneg (by norm_num) (le_trans hc hA)
    rw [h]
    refine ⟨?_, hA⟩
    intro e he
    rcases mem_mapAdjust _ _ _ _ (mem_mapDelete _ _ _ he) with h1 | h1
    · rw [h1]
      show c ≤ B.mass + (17 / 20) * st.1.mass
      linarith
    · exact hm _ h1

/-- The cached outer player stays coherent with the map: its key either
still maps to exactly the cached object, or is gone from the map. -/
theorem pvpInner_coherence (ai : String)
    (st : Player × List (String × Player) × List Absorption) (bj : String)
    (h : mlookup ai st.2.1 = some st.1 ∨ mlookup ai st.2.1 = none) :
    mlookup ai (pvpInner ai st bj).2.1 = some (pvpInner ai st bj).1 ∨
      mlookup ai (pvpInner ai st bj).2.1 = none := by
  rcases pvpInner_cases ai st bj with heq | ⟨B, hB, hne, hba, heq⟩ | ⟨B, hB, hne, hba, heq⟩
  · rw [heq]
    exact h
  · rw [heq]
    dsimp only
    by_cases hid : ai = B.id
    · right
      rw [hid, mlookup_mapDelete_self]
    · rw [mlookup_mapDelete_ne _ _ _ hid, mlookup_mapAdjust_self]
      rcases h with h | h
      · left
        rw [h]
        rfl
      · right
        rw [h]
        rfl
  · rw [heq]
    dsimp only
    by_cases hid : ai = st.1.id
    · right
      rw [hid, mlookup_mapDelete_self]
    · rw [mlookup_mapDelete_ne _ _ _ hid]
      by_cases hab : ai = bj
      · exfalso
        rcases h with h | h
        · rw [hab] at h
          rw [h] at hB
          exact hne (congrArg Player.mass (Option.some.inj hB))
        · rw [hab] at h
          rw [h] at hB
          exact Option.noConfusion hB
      · rw [mlookup_mapAdjust_ne _ _ _ _ hab]
        exact h

/-- Forward survival through one inner step: a player present before is
either still present afterwards with its mass not decreased and its
`lastInputAt` untouched, or its id was just logged as absorbed. -/
theorem pvpInner_lookup_or (ai : String)
    (st : Player × List (String × Player) × List Absorption) (bj : String)
    (hcoh : mlookup ai st.2.1 = some st.1 ∨ mlookup ai st.2.1 = none)
    (h0m : ∀ e ∈ st.2.1, 0 ≤ e.2.mass) (h0A : 0 ≤ st.1.mass)
    (id : String) (q : Player) (hq : mlookup id st.2.1 = some q) :
    (∃ q', mlookup id (pvpInner ai st bj).2.1 = some q' ∧ q.mass ≤ q'.mass ∧
        q'.lastInputAt = q.lastInputAt) ∨
      id ∈ ((pvpInner ai st bj).2.2.map Absorption.small) := by
  rcases pvpInner_cases ai st bj with heq | ⟨B, hB, hne, hba, heq⟩ | ⟨B, hB, hne, hba, heq⟩
  · left
    exact ⟨q, by rw [heq]; exact hq, le_rfl, rfl⟩
  · have hBm : 0 ≤ B.mass := h0m _ (mlookup_mem _ _ _ hB)
    have h85 : (0 : ℚ) ≤ (17 / 20) * B.mass := mul_nonneg (by norm_num) hBm
    by_cases hsm : id = B.id
    · right
      rw [heq]
      simp [hsm]
    · left
      rw [heq]
      dsimp only
      rw [mlookup_mapDelete_ne _ _ _ hsm]
      by_cases hbg : id = ai
      · rw [hbg] at hq
        rcases hcoh with hco | hco
        · have hqA : q = st.1 := Option.some.inj (hq.symm.trans hco)
          rw [hbg, mlookup_mapAdjust_self, hq, Option.map_some']
          refine ⟨_, rfl, ?_, ?_⟩
          · rw [hqA]
            show st.1.mass ≤ st.1.mass + (17 / 20) * B.mass
            linarith
          · rw [hqA]
        · rw [hco] at hq
          exact Option.noConfusion hq
      · rw [mlookup_mapAdjust_ne _ _ _ _ hbg]
        exact ⟨q, hq, le_rfl, rfl⟩
  · have h85 : (0 : ℚ) ≤ (17 / 20) * st.1.mass := mul_nonneg (by norm_num) h0A
    by_cases hsm : id = st.1.id
    · right
      rw [heq]
      simp [hsm]
    · left
      rw [heq]
      dsimp only
      rw [mlookup_mapDelete_ne _ _ _ hsm]
      by_cases hbg : id = bj
      · rw [hbg] at hq
        have hqB : q = B := Option.some.inj (hq.symm.trans hB)
        rw [hbg, mlookup_mapAdjust_self, hq, Option.map_some']
        refine ⟨_, rfl, ?_, ?_⟩
        · rw [hqB]
          show B.mass ≤ B.mass + (17 / 20) * st.1.mass
          linarith
        · rw [hqB]
      · rw [mlookup_mapAdjust_ne _ _ _ _ hbg]
        exact ⟨q, hq, le_rfl, rfl⟩

/-- Backward lookup through one inner step: a player present afterwards
was present before, with mass not decreased by the step. -/
theorem pvpInner_lookup_back (ai : String)
    (st : Player × List (String × Player) × List Absorption) (bj : String)
    (hcoh : mlookup ai st.2.1 = some st.1 ∨ mlookup ai st.2.1 = none)
    (h0m : ∀ e ∈ st.2.1, 0 ≤ e.2.mass) (h0A : 0 ≤ st.1.mass)
    (id : String) (q' : Player)
    (hq' : mlookup id (pvpInner ai st bj).2.1 = some q') :
    ∃ q, mlookup id st.2.1 = some q ∧ q.mass ≤ q'.mass := by
  rcases pvpInner_cases ai st bj with heq | ⟨B, hB, hne, hba, heq⟩ | ⟨B, hB, hne, hba, heq⟩
  · rw [heq] at hq'
    exact ⟨q', hq', le_rfl⟩
  · rw [heq] at hq'
    dsimp only at hq'
    have hBm : 0 ≤ B.mass := h0m _ (mlookup_mem _ _ _ hB)
    have h85 : (0 : ℚ) ≤ (17 / 20) * B.mass := mul_nonneg (by norm_num) hBm
    by_cases hsm : id = B.id
    · rw [hsm, mlookup_mapDelete_self] at hq'
      exact Option.noConfusion hq'
    · rw [mlookup_mapDelete_ne _ _ _ hsm] at hq'
      by_cases hbg : id = ai
      · rw [hbg, mlookup_mapAdjust_self] at hq'
        rcases hcoh with hco | hco
        · rw [hco, Option.map_some'] at hq'
          refine ⟨st.1, by rw [hbg]; exact hco, ?_⟩
          rw [← Option.some.inj hq']
          show st.1.mass ≤ st.1.mass + (17 / 20) * B.mass
          linarith
        · rw [hco] at hq'
          exact Option.noConfusion hq'
      · rw [mlookup_mapAdjust_ne _ _ _ _ hbg] at hq'
        exact ⟨q', hq', le_rfl⟩
  · rw [heq] at hq'
    dsimp only at hq'
    have h85 : (0 : ℚ) ≤ (17 / 20) * st.1.mass := mul_nonneg (by norm_num) h0A
    by_cases hsm : id = st.1.id
    · rw [hsm, mlookup_mapDelete_self] at hq'
      exact Option.noConfusion hq'
    · rw [mlookup_mapDelete_ne _ _ _ hsm] at hq'
      by_cases hbg : id = bj
      · rw [hbg, mlookup_mapAdjust_self, hB, Option.map_some'] at hq'
        refine ⟨B, by rw [hbg]; exact hB, ?_⟩
        rw [← Option.some.inj hq']
        show B.mass ≤ B.mass + (17 / 20) * st.1.mass
        linarith
      · rw [mlookup_mapAdjust_ne _ _ _ _ hbg] at hq'
        exact ⟨q', hq', le_rfl⟩

/-- Every log entry keeps satisfying the accounting equation, and every
logged absorbed id keeps being absent from the map, across one inner
step (absence is unconditional: `mapAdjust` never inserts a key and
`mapDelete` only removes). -/
theorem pvpInner_log_sound (ai : String)
    (st : Player × List (String × Player) × List Absorption) (bj : String)
    (hacc : ∀ a ∈ st.2.2, a.bigAfter = a.bigBefore + (17 / 20) * a.smallBefore)
    (hgone : ∀ a ∈ st.2.2, mlookup a.small st.2.1 = none) :
    (∀ a ∈ (pvpInner ai st bj).2.2,
        a.bigAfter = a.bigBefore + (17 / 20) * a.smallBefore) ∧
      ∀ a ∈ (pvpInner ai st bj).2.2,
        mlookup a.small (pvpInner ai st bj).2.1 = none := by
  have key : ∀ (dk ak : String) (v : Player) (m : List (String × Player)) (s : String),
      mlookup s m = none → mlookup s (mapDelete dk (mapAdjust ak v m)) = none := by
    intro dk ak v m s hs
    by_cases h1 : s = dk
    · rw [h1, mlookup_mapDelete_self]
    · rw [mlookup_mapDelete_ne _ _ _ h1]
      by_cases h2 : s = ak
      · rw [h2, mlookup_mapAdjust_self]
        rw [h2] at hs
        rw [hs]
        rfl
      · rw [mlookup_mapAdjust_ne _ _ _ _ h2]
        exact hs
  rcases pvpInner_cases ai st bj with heq | ⟨B, hB, hne, hba, heq⟩ | ⟨B, hB, hne, hba, heq⟩
  · rw [heq]
    exact ⟨hacc, hgone⟩
  · rw [heq]
    dsimp only
    constructor
    · intro a ha
      rcases List.mem_append.1 ha with h1 | h1
      · exact hacc a h1
      · rw [List.mem_singleton.1 h1]
    · intro a ha
      rcases List.mem_append.1 ha with h1 | h1
      · exact key _ _ _ _ _ (hgone a h1)
      · rw [List.mem_singleton.1 h1]
        exact mlookup_mapDelete_self _ _
  · rw [heq]
    dsimp only
    constructor
    · intro a ha
      rcases List.mem_append.1 ha with h1 | h1
      · exact hacc a h1
      · rw [List.mem_singleton.1 h1]
    · intro a ha
      rcases List.mem_append.1 ha with h1 | h1
      · exact key _ _ _ _ _ (hgone a h1)
      · rw [List.mem_singleton.1 h1]
        exact mlookup_mapDelete_self _ _

/-! ### The inner fold (one whole inner `j` loop) -/

theorem pvpInner_foldl_length_le (ai : String) (bjs : List String) :
    ∀ st : Player × List (String × Player) × List Absorption,
      (bjs.foldl (pvpInner ai) st).2.1.length ≤ st.2.1.length := by
  induction bjs with
  | nil => intro st; exact le_rfl
  | cons bj rest ih =>
    intro st
    rw [List.foldl_cons]
    exact le_trans (ih _) (pvpInner_length_le _ _ _)

theorem pvpInner_foldl_log_prefix (ai : String) (bjs : List String) :
    ∀ st, ∃ t, (bjs.foldl (pvpInner ai) st).2.2 = st.2.2 ++ t := by
  induction bjs with
  | nil => intro st; exact ⟨[], by simp⟩
  | cons bj rest ih =>
    intro st
    rw [List.foldl_cons]
    rcases pvpInner_log_prefix ai st bj with ⟨t1, h1⟩
    rcases ih (pvpInner ai st bj) with ⟨t2, h2⟩
    exact ⟨t1 ++ t2, by rw [h2, h1, List.append_assoc]⟩

theorem pvpInner_foldl_mass_lb (c : ℚ) (hc : 0 ≤ c) (ai : String) (bjs : List String) :
    ∀ st, (∀ e ∈ st.2.1, c ≤ e.2.mass) → c ≤ st.1.mass →
      (∀ e ∈ (bjs.foldl (pvpInner ai) st).2.1, c ≤ e.2.mass) ∧
        c ≤ (bjs.foldl (pvpInner ai) st).1.mass := by
  induction bjs with
  | nil => intro st hm hA; exact ⟨hm, hA⟩
  | cons bj rest ih =>
    intro st hm hA
    rw [List.foldl_cons]
    rcases pvpInner_mass_lb c hc ai st bj hm hA with ⟨hm1, hA1⟩
    exact ih _ hm1 hA1

theorem pvpInner_foldl_lookup_or (ai : String) (bjs : List String) :
    ∀ st, (mlookup ai st.2.1 = some st.1 ∨ mlookup ai st.2.1 = none) →
      (∀ e ∈ st.2.1, 0 ≤ e.2.mass) → 0 ≤ st.1.mass →
      ∀ (id : String) (q : Player), mlookup id st.2.1 = some q →
        id ∉ ((bjs.foldl (pvpInner ai) st).2.2.map Absorption.small) →
        ∃ q', mlookup id (bjs.foldl (pvpInner ai) st).2.1 = some q' ∧
          q.mass ≤ q'.mass ∧ q'.lastInputAt = q.lastInputAt := by
  induction bjs with
  | nil =>
    intro st _ _ _ id q hq _
    exact ⟨q, hq, le_rfl, rfl⟩
  | cons bj rest ih =>
    intro st hcoh h0m h0A id q hq hni
    rw [List.foldl_cons] at hni ⊢
    have hcoh1 := pvpInner_coherence ai st bj hcoh
    have h01 := pvpInner_mass_lb 0 le_rfl ai st bj h0m h0A
    rcases pvpInner_lookup_or ai st bj hcoh h0m h0A id q hq with ⟨q1, hq1, hm1, hl1⟩ | hmem
    · rcases ih _ hcoh1 h01.1 h01.2 id q1 hq1 hni with ⟨q', hq', hm2, hl2⟩
      exact ⟨q', hq', le_trans hm1 hm2, hl2.trans hl1⟩
    · exfalso
      apply hni
      rcases pvpInner_foldl_log_prefix ai rest (pvpInner ai st bj) with ⟨t, ht⟩
      rw [ht, List.map_append]
      exact List.mem_append_left _ hmem

theorem pvpInner_foldl_lookup_back (ai : String) (bjs : List String) :
    ∀ st, (mlookup ai st.2.1 = some st.1 ∨ mlookup ai st.2.1 = none) →
      (∀ e ∈ st.2.1, 0 ≤ e.2.mass) → 0 ≤ st.1.mass →
      ∀ (id : String) (q' : Player),
        mlookup id (bjs.foldl (pvpInner ai) st).2.1 = some q' →
        ∃ q, mlookup id st.2.1 = some q ∧ q.mass ≤ q'.mass := by
  induction bjs with
  | nil => intro st _ _ _ id q' hq'; exact ⟨q', hq', le_rfl⟩
  | cons bj rest ih =>
    intro st hcoh h0m h0A id q' hq'
    rw [List.foldl_cons] at hq'
    have hcoh1 := pvpInner_coherence ai st bj hcoh
    have h01 := pvpInner_mass_lb 0 le_rfl ai st bj h0m h0A
    rcases ih _ hcoh1 h01.1 h01.2 id q' hq' with ⟨q1, hq1, hle1⟩
    rcases pvpInner_lookup_back ai st bj hcoh h0m h0A id q1 hq1 with ⟨q, hq, hle⟩
    exact ⟨q, hq, le_trans hle hle1⟩

theorem pvpInner_foldl_log_sound (ai : String) (bjs : List String) :
    ∀ st, (∀ a ∈ st.2.2, a.bigAfter = a.bigBefore + (17 / 20) * a.smallBefore) →
      (∀ a ∈ st.2.2, mlookup a.small st.2.1 = none) →
      (∀ a ∈ (bjs.foldl (pvpInner ai) st).2.2,
          a.bigAfter = a.bigBefore + (17 / 20) * a.smallBefore) ∧
        ∀ a ∈ (bjs.foldl (pvpInner ai) st).2.2,
          mlookup a.small (bjs.foldl (pvpInner ai) st).2.1 = none := by
  induction bjs with
  | nil => intro st h1 h2; exact ⟨h1, h2⟩
  | cons bj rest ih =>
    intro st h1 h2
    rw [List.foldl_cons]
    rcases pvpInner_log_sound ai st bj h1 h2 with ⟨h1', h2'⟩
    exact ih _ h1' h2'

/-! ### The outer loop -/

theorem pvpOuter_nil (st : List (String × Player) × List Absorption) :
    pvpOuter [] st = st := rfl

theorem pvpOuter_cons_none (ai : String) (rest : List String)
    (st : List (String × Player) × List Absorption)
    (h : mlookup ai st.1 = none) :
    pvpOuter (ai :: rest) st = pvpOuter rest st := by
  rw [pvpOuter, h]

theorem pvpOuter_cons_some (ai : String) (rest : List String)
    (st : List (String × Player) × List Absorption) (A : Player)
    (h : mlookup ai st.1 = some A) :
    pvpOuter (ai :: rest) st =
      pvpOuter rest ((rest.foldl (pvpInner ai) (A, st.1, st.2)).2.1,
        (rest.foldl (pvpInner ai) (A, st.1, st.2)).2.2) := by
  rw [pvpOuter, h]

theorem pvpOuter_length_le (ids : List String) :
    ∀ st, (pvpOuter ids st).1.length ≤ st.1.length := by
  induction ids with
  | nil => intro st; exact le_rfl
  | cons ai rest ih =>
    intro st
    cases h : mlookup ai st.1 with
    | none =>
      rw [pvpOuter_cons_none _ _ _ h]
      exact ih st
    | some A =>
      rw [pvpOuter_cons_some _ _ _ _ h]
      exact le_trans (ih _) (pvpInner_foldl_length_le _ _ _)

theorem pvpOuter_log_prefix (ids : List String) :
    ∀ st, ∃ t, (pvpOuter ids st).2 = st.2 ++ t := by
  induction ids with
  | nil => intro st; exact ⟨[], by rw [pvpOuter_nil, List.append_nil]⟩
  | cons ai rest ih =>
    intro st
    cases h : mlookup ai st.1 with
    | none =>
      rw [pvpOuter_cons_none _ _ _ h]
      exact ih st
    | some A =>
      rcases ih ((rest.foldl (pvpInner ai) (A, st.1, st.2)).2.1,
        (rest.foldl (pvpInner ai) (A, st.1, st.2)).2.2) with ⟨t2, h2⟩
      rcases pvpInner_foldl_log_prefix ai rest (A, st.1, st.2) with ⟨t1, h1⟩
      refine ⟨t1 ++ t2, ?_⟩
      rw [pvpOuter_cons_some _ _ _ _ h, h2]
      dsimp only
      rw [h1]
      dsimp only
      rw [List.append_assoc]

theorem pvpOuter_mass_lb (c : ℚ) (hc : 0 ≤ c) (ids : List String) :
    ∀ st, (∀ e ∈ st.1, c ≤ e.2.mass) →
      ∀ e ∈ (pvpOuter ids st).1, c ≤ e.2.mass := by
  induction ids with
  | nil => intro st hm; exact hm
  | cons ai rest ih =>
    intro st hm
    cases h : mlookup ai st.1 with
    | none =>
      rw [pvpOuter_cons_none _ _ _ h]
      exact ih st hm
    | some A =>
      rw [pvpOuter_cons_some _ _ _ _ h]
      have hA : c ≤ A.mass := hm _ (mlookup_mem _ _ _ h)
      exact ih _ (pvpInner_foldl_mass_lb c hc ai rest (A, st.1, st.2) hm hA).1

theorem pvpOuter_log_sound (ids : List String) :
    ∀ st, (∀ a ∈ st.2, a.bigAfter = a.bigBefore + (17 / 20) * a.smallBefore) →
      (∀ a ∈ st.2, mlookup a.small st.1 = none) →
      (∀ a ∈ (pvpOuter ids st).2,
          a.bigAfter = a.bigBefore + (17 / 20) * a.smallBefore) ∧
        ∀ a ∈ (pvpOuter ids st).2, mlookup a.small (pvpOuter ids st).1 = none := by
  induction ids with
  | nil => intro st h1 h2; exact ⟨h1, h2⟩
  | cons ai rest ih =>
    intro st h1 h2
    cases h : mlookup ai st.1 with
    | none =>
      rw [pvpOuter_cons_none _ _ _ h]
      exact ih st h1 h2
    | some A =>
      rw [pvpOuter_cons_some _ _ _ _ h]
      rcases pvpInner_foldl_log_sound ai rest (A, st.1, st.2) h1 h2 with ⟨h1', h2'⟩
      exact ih _ h1' h2'

theorem pvpOuter_lookup_or (ids : List String) :
    ∀ st, (∀ e ∈ st.1, 0 ≤ e.2.mass) →
      ∀ (id : String) (q : Player), mlookup id st.1 = some q →
        id ∉ ((pvpOuter ids st).2.map Absorption.small) →
        ∃ q', mlookup id (pvpOuter ids st).1 = some q' ∧ q.mass ≤ q'.mass ∧
          q'.lastInputAt = q.lastInputAt := by
  induction ids with
  | nil => intro st _ id q hq _; exact ⟨q, hq, le_rfl, rfl⟩
  | cons ai rest ih =>
    intro st h0 id q hq hni
    cases h : mlookup ai st.1 with
    | none =>
      rw [pvpOuter_cons_none _ _ _ h] at hni ⊢
      exact ih st h0 id q hq hni
    | some A =>
      rw [pvpOuter_cons_some _ _ _ _ h] at hni ⊢
      have h0A : 0 ≤ A.mass := h0 _ (mlookup_mem _ _ _ h)
      have hfold0 := pvpInner_foldl_mass_lb 0 le_rfl ai rest (A, st.1, st.2) h0 h0A
      have hni1 : id ∉ ((rest.foldl (pvpInner ai) (A, st.1, st.2)).2.2.map
          Absorption.small) := by
        intro hmem
        apply hni
        rcases pvpOuter_log_prefix rest
          ((rest.foldl (pvpInner ai) (A, st.1, st.2)).2.1,
            (rest.foldl (pvpInner ai) (A, st.1, st.2)).2.2) with ⟨t, ht⟩
        rw [ht, List.map_append]
        exact List.mem_append_left _ hmem
      rcases pvpInner_foldl_lookup_or ai rest (A, st.1, st.2) (Or.inl h) h0 h0A id q hq
        hni1 with ⟨q1, hq1, hm1, hl1⟩
      rcases ih _ hfold0.1 id q1 hq1 hni with ⟨q', hq', hm2, hl2⟩
      exact ⟨q', hq', le_trans hm1 hm2, hl2.trans hl1⟩

theorem pvpOuter_lookup_back (ids : List String) :
    ∀ st, (∀ e ∈ st.1, 0 ≤ e.2.mass) →
      ∀ (id : String) (q' : Player), mlookup id (pvpOuter ids st).1 = some q' →
        ∃ q, mlookup id st.1 = some q ∧ q.mass ≤ q'.mass := by
  induction ids with
  | nil => intro st _ id q' hq'; exact ⟨q', hq', le_rfl⟩
  | cons ai rest ih =>
    intro st h0 id q' hq'
    cases h : mlookup ai st.1 with
    | none =>
      rw [pvpOuter_cons_none _ _ _ h] at hq'
      exact ih st h0 id q' hq'
    | some A =>
      rw [pvpOuter_cons_some _ _ _ _ h] at hq'
      have h0A : 0 ≤ A.mass := h0 _ (mlookup_mem _ _ _ h)
      have hfold0 := pvpInner_foldl_mass_lb 0 le_rfl ai rest (A, st.1, st.2) h0 h0A
      rcases ih _ hfold0.1 id q' hq' with ⟨q1, hq1, hle1⟩
      rcases pvpInner_foldl_lookup_back ai rest (A, st.1, st.2) (Or.inl h) h0 h0A id q1
        hq1 with ⟨q, hq, hle⟩
      exact ⟨q, hq, le_trans hle hle1⟩

/-! ### The whole PvP pass -/

theorem pvpPass_players_length_le (ps : List (String × Player)) :
    (pvpPass ps).1.length ≤ ps.length :=
  pvpOuter_length_le _ (ps, [])

theorem pvpPass_mass_lb (c : ℚ) (hc : 0 ≤ c) (ps : List (String × Player))
    (h : ∀ e ∈ ps, c ≤ e.2.mass) : ∀ e ∈ (pvpPass ps).1, c ≤ e.2.mass :=
  pvpOuter_mass_lb c hc _ (ps, []) h

theorem pvpPass_lookup_or (ps : List (String × Player))
    (h0 : ∀ e ∈ ps, 0 ≤ e.2.mass) (id : String) (q : Player)
    (hq : mlookup id ps = some q)
    (hni : id ∉ ((pvpPass ps).2.map Absorption.small)) :
    ∃ q', mlookup id (pvpPass ps).1 = some q' ∧ q.mass ≤ q'.mass ∧
      q'.lastInputAt = q.lastInputAt :=
  pvpOuter_lookup_or _ (ps, []) h0 id q hq hni

theorem pvpPass_lookup_back (ps : List (String × Player))
    (h0 : ∀ e ∈ ps, 0 ≤ e.2.mass) (id : String) (q' : Player)
    (hq' : mlookup id (pvpPass ps).1 = some q') :
    ∃ q, mlookup id ps = some q ∧ q.mass ≤ q'.mass :=
  pvpOuter_lookup_back _ (ps, []) h0 id q' hq'

end Blobbet

namespace Blobbet

/-! ### Claim C4: the equal-mass stalemate -/

/-- Claim C4: equal-mass pairs never resolve.  First part: whenever the
inner pair loop examines a pair whose masses are equal at that moment —
the live `B` against the (possibly stale) cached outer player — the step
is a no-op (the source's explicit `continue`): cache, player map and
absorption log are all unchanged, so neither mass changes and both stay
alive.  Second part: a room holding exactly two equal-mass players is
left untouched by the whole PvP pass, at any distance including full
overlap. -/
theorem c4_equal_mass_stalemate :
    (∀ (ai : String) (st : Player × List (String × Player) × List Absorption)
        (bj : String) (B : Player),
        mlookup bj st.2.1 = some B → st.1.mass = B.mass →
        pvpInner ai st bj = st) ∧
    (∀ (ka kb : String) (A B : Player), A.mass = B.mass →
        pvpPass [(ka, A), (kb, B)] = ([(ka, A), (kb, B)], [])) := by
  constructor
  · intro ai st bj B hB hm
    simp [pvpInner, hB, hm]
  · intro ka kb A B hm
    by_cases hk : ka = kb
    · subst hk
      simp [pvpPass, pvpOuter, pvpInner, mlookup]
    · simp [pvpPass, pvpOuter, pvpInner, mlookup, hk, hm, Ne.symm hk]

/-- Witness for C4: two mass-150 players at the same point (full overlap)
survive the whole PvP pass unchanged. -/
theorem c4_equal_mass_stalemate_witness :
    pvpPass [("a", testPlayer "a" 75 75 150), ("b", testPlayer "b" 75 75 150)] =
      ([("a", testPlayer "a" 75 75 150), ("b", testPlayer "b" 75 75 150)], []) :=
  c4_equal_mass_stalemate.2 "a" "b" _ _ rfl

/-! ### Claim C1: absorption accounting -/

/-- Claim C1, amended: every absorption the PvP pass resolves satisfies
the accounting equation `bigAfter = bigBefore + 0.85 * smallBefore` (the
masses read at resolution time), and every absorbed id is absent from the
surviving player map when the pass ends.  The original claim's "exactly
once per absorbed player" is false of the source — see
`c1_counterexample`: the outer loop's stale cached reference lets an
already-eliminated player be absorbed again by a later player. -/
theorem c1_amended_absorption_accounting (ps : List (String × Player)) :
    (∀ a ∈ (pvpPass ps).2, a.bigAfter = a.bigBefore + (17 / 20) * a.smallBefore) ∧
      ∀ a ∈ (pvpPass ps).2, mlookup a.small (pvpPass ps).1 = none :=
  pvpOuter_log_sound (ps.map Prod.fst) (ps, [])
    (fun a ha => absurd ha (List.not_mem_nil a))
    (fun a ha => absurd ha (List.not_mem_nil a))

/-- One resolved absorption in the branch where the live player `B` wins
against the cached outer player `A` (stated at an arbitrary map, so it
also covers the stale case in which `A` is no longer in the map and
`mapDelete A.id` is a no-op). -/
theorem pvpInner_absorb_bigB (ai bj : String) (A B : Player)
    (m : List (String × Player)) (log : List Absorption)
    (hB : mlookup bj m = some B) (hne : A.mass ≠ B.mass) (hlt : ¬ B.mass < A.mass)
    (hcond : absorbCondB B.mass A.mass ((A.x - B.x) ^ 2 + (A.y - B.y) ^ 2) = true) :
    pvpInner ai (A, m, log) bj =
      (A, mapDelete A.id (mapAdjust bj { B with mass := B.mass + (17 / 20) * A.mass } m),
       log ++ [⟨B.id, A.id, B.mass, A.mass, B.mass + (17 / 20) * A.mass⟩]) := by
  simp [pvpInner, hB, hne, hlt, hcond]

/-- Counterexample to C1's "exactly once per absorbed player per tick":
on the three overlapping players of `c1ps3` (masses 120, 125, 130) a
single PvP pass logs player a as absorbed TWICE — first by b, then, via
the stale cached reference of the outer loop, by c again — crediting
a's mass to two different absorbers and emitting two `ko`s to a. -/
theorem c1_counterexample :
    (pvpPass c1ps3).2 = [c1abs1, c1abs2, c1abs3] ∧
      ¬ ((pvpPass c1ps3).2.map Absorption.small).Nodup := by
  have hs1 : pvpInner "a" (testPlayer "a" 0 0 120, c1ps3, []) "b" =
      (testPlayer "a" 0 0 120,
       [("b", testPlayer "b" 0 0 227), ("c", testPlayer "c" 0 0 130)], [c1abs1]) := by
    rw [pvpInner_absorb_bigB "a" "b" (testPlayer "a" 0 0 120) (testPlayer "b" 0 0 125)
      c1ps3 [] rfl (by norm_num [testPlayer]) (by norm_num [testPlayer])
      (by simp only [testPlayer, absorbCondB, Bool.and_eq_true, decide_eq_true_eq]
          norm_num)]
    rw [show ∀ v : Player, mapDelete (testPlayer "a" 0 0 120).id (mapAdjust "b" v c1ps3) =
      [("b", v), ("c", testPlayer "c" 0 0 130)] from fun v => rfl]
    norm_num [testPlayer, c1abs1, Player.mk.injEq, Absorption.mk.injEq, Prod.mk.injEq]
  have hs2 : pvpInner "a"
      (testPlayer "a" 0 0 120,
       [("b", testPlayer "b" 0 0 227), ("c", testPlayer "c" 0 0 130)], [c1abs1]) "c" =
      (testPlayer "a" 0 0 120,
       [("b", testPlayer "b" 0 0 227), ("c", testPlayer "c" 0 0 232)],
       [c1abs1, c1abs2]) := by
    rw [pvpInner_absorb_bigB "a" "c" (testPlayer "a" 0 0 120) (testPlayer "c" 0 0 130)
      [("b", testPlayer "b" 0 0 227), ("c", testPlayer "c" 0 0 130)] [c1abs1] rfl
      (by norm_num [testPlayer]) (by norm_num [testPlayer])
      (by simp only [testPlayer, absorbCondB, Bool.and_eq_true, decide_eq_true_eq]
          norm_num)]
    rw [show ∀ v : Player, mapDelete (testPlayer "a" 0 0 120).id (mapAdjust "c" v
        [("b", testPlayer "b" 0 0 227), ("c", testPlayer "c" 0 0 130)]) =
      [("b", testPlayer "b" 0 0 227), ("c", v)] from fun v => rfl]
    norm_num [testPlayer, c1abs2, Player.mk.injEq, Absorption.mk.injEq, Prod.mk.injEq]
  have hs3 : pvpInner "b"
      (testPlayer "b" 0 0 227,
       [("b", testPlayer "b" 0 0 227), ("c", testPlayer "c" 0 0 232)],
       [c1abs1, c1abs2]) "c" =
      (testPlayer "b" 0 0 227, [("c", testPlayer "c" 0 0 (8499 / 20))],
       [c1abs1, c1abs2, c1abs3]) := by
    rw [pvpInner_absorb_bigB "b" "c" (testPlayer "b" 0 0 227) (testPlayer "c" 0 0 232)
      [("b", testPlayer "b" 0 0 227), ("c", testPlayer "c" 0 0 232)] [c1abs1, c1abs2] rfl
      (by norm_num [testPlayer]) (by norm_num [testPlayer])
      (by simp only [testPlayer, absorbCondB, Bool.and_eq_true, decide_eq_true_eq]
          norm_num)]
    rw [show ∀ v : Player, mapDelete (testPlayer "b" 0 0 227).id (mapAdjust "c" v
        [("b", testPlayer "b" 0 0 227), ("c", testPlayer "c" 0 0 232)]) =
      [("c", v)] from fun v => rfl]
    norm_num [testPlayer, c1abs3, Player.mk.injEq, Absorption.mk.injEq, Prod.mk.injEq]
  have hfold1 : ["b", "c"].foldl (pvpInner "a") (testPlayer "a" 0 0 120, c1ps3, []) =
      (testPlayer "a" 0 0 120,
       [("b", testPlayer "b" 0 0 227), ("c", testPlayer "c" 0 0 232)],
       [c1abs1, c1abs2]) := by
    rw [List.foldl_cons, hs1, List.foldl_cons, hs2, List.foldl_nil]
  have hfold2 : ["c"].foldl (pvpInner "b")
      (testPlayer "b" 0 0 227,
       [("b", testPlayer "b" 0 0 227), ("c", testPlayer "c" 0 0 232)],
       [c1abs1, c1abs2]) =
      (testPlayer "b" 0 0 227, [("c", testPlayer "c" 0 0 (8499 / 20))],
       [c1abs1, c1abs2, c1abs3]) := by
    rw [List.foldl_cons, hs3, List.foldl_nil]
  have hfull : pvpPass c1ps3 =
      ([("c", testPlayer "c" 0 0 (8499 / 20))], [c1abs1, c1abs2, c1abs3]) := by
    show pvpOuter (c1ps3.map Prod.fst) (c1ps3, []) =
      ([("c", testPlayer "c" 0 0 (8499 / 20))], [c1abs1, c1abs2, c1abs3])
    have hids : c1ps3.map Prod.fst = ["a", "b", "c"] := rfl
    rw [hids, pvpOuter_cons_some "a" ["b", "c"] (c1ps3, []) (testPlayer "a" 0 0 120) rfl]
    dsimp only
    rw [hfold1]
    dsimp only
    rw [pvpOuter_cons_some "b" ["c"]
      ([("b", testPlayer "b" 0 0 227), ("c", testPlayer "c" 0 0 232)],
       [c1abs1, c1abs2]) (testPlayer "b" 0 0 227) rfl]
    dsimp only
    rw [hfold2]
    dsimp only
    rw [pvpOuter_cons_some "c" []
      ([("c", testPlayer "c" 0 0 (8499 / 20))], [c1abs1, c1abs2, c1abs3])
      (testPlayer "c" 0 0 (8499 / 20)) rfl]
    dsimp only
    rw [List.foldl_nil]
    dsimp only
    rw [pvpOuter_nil]
  constructor
  · rw [hfull]
  · rw [hfull]
    decide

end Blobbet

namespace Blobbet

/-! ### Claim C7: pellet generation and the random stream -/

/-- Counterexample to claim C7 (initial pellet generation is a
deterministic function of the room's seed): `spawnPellets` takes no seed
at all — rooms have no seed field and the generator reads the process-wide
`Math.random` stream — so two generations "from the identical seed
string" are just two generations, and with different underlying random
streams (as two independent runs have) they produce different ordered
coordinate sequences: under the all-zeros stream every pellet is at
(40, 40), under the all-halves stream at (1500, 1500). -/
theorem c7_counterexample : (spawnPellets rng0 0).1 ≠ (spawnPellets rngHalf 0).1 := by
  intro h
  have hx := congrArg (fun l => l.head?.map Pellet.x) h
  have hsplit : List.range PELLET_COUNT = 0 :: List.map Nat.succ (List.range 399) := by
    rw [show PELLET_COUNT = 399 + 1 from by norm_num [PELLET_COUNT], List.range_succ_eq_map]
  have h1 : ((spawnPellets rng0 0).1.head?.map Pellet.x) = some 40 := by
    simp only [spawnPellets, hsplit, List.map_cons, List.head?_cons, Option.map_some']
    norm_num [mkPelletAt, randIn, rng0, W]
  have h2 : ((spawnPellets rngHalf 0).1.head?.map Pellet.x) = some 1500 := by
    simp only [spawnPellets, hsplit, List.map_cons, List.head?_cons, Option.map_some']
    norm_num [mkPelletAt, randIn, rngHalf, W]
  dsimp only at hx
  rw [h1, h2] at hx
  have : (40 : ℚ) = 1500 := by injection hx
  norm_num at this

/-- Claim C7 amended: the generator is deterministic only in the random
draws it consumes — two pellet fields generated from streams that agree on
the `3 * PELLET_COUNT` consumed draws are identical ordered sequences
(there is no room seed; across runs the streams differ and so do the
layouts, see the counterexample). -/
theorem c7_amended_stream_determinism (rng1 rng2 : ℕ → ℚ) (k : ℕ)
    (h : ∀ i, i < 3 * PELLET_COUNT → rng1 (k + i) = rng2 (k + i)) :
    (spawnPellets rng1 k).1 = (spawnPellets rng2 k).1 := by
  simp only [spawnPellets]
  apply List.map_congr_left
  intro n hn
  have hn' : n < PELLET_COUNT := List.mem_range.1 hn
  have hn400 : n < 400 := by simpa [PELLET_COUNT] using hn'
  have h1 : rng1 (k + 3 * n) = rng2 (k + 3 * n) :=
    h (3 * n) (by simp only [PELLET_COUNT]; omega)
  have h2 : rng1 (k + 3 * n + 1) = rng2 (k + 3 * n + 1) := by
    have := h (3 * n + 1) (by simp only [PELLET_COUNT]; omega)
    rwa [← Nat.add_assoc] at this
  have h3 : rng1 (k + 3 * n + 2) = rng2 (k + 3 * n + 2) := by
    have := h (3 * n + 2) (by simp only [PELLET_COUNT]; omega)
    rwa [← Nat.add_assoc] at this
  simp only [mkPelletAt, h1, h2, h3]

/-- Witness for the amended C7: a stream that deviates from the all-zeros
stream only beyond the consumed prefix spawns the identical field. -/
theorem c7_amended_stream_determinism_witness :
    (spawnPellets rngTail7 0).1 = (spawnPellets rng0 0).1 := by
  apply c7_amended_stream_determinism
  intro i hi
  simp only [rngTail7, rng0, Nat.zero_add]
  rw [if_pos hi]

/-! ### Claim C5: the nearby-players view -/

theorem eq_of_mem_of_nodupKeys (l : List (String × β)) (k : String) (x y : β)
    (hnd : (l.map Prod.fst).Nodup) (hx : (k, x) ∈ l) (hy : (k, y) ∈ l) : x = y := by
  induction l with
  | nil => cases hx
  | cons e rest ih =>
    simp only [List.map_cons, List.nodup_cons] at hnd
    rcases List.mem_cons.1 hx with hx1 | hx1 <;> rcases List.mem_cons.1 hy with hy1 | hy1
    · have : (k, x) = (k, y) := hx1.trans hy1.symm
      exact (Prod.ext_iff.1 this).2
    · exfalso
      apply hnd.1
      have he : e.1 = k := by rw [← hx1]
      rw [he]
      exact List.mem_map.2 ⟨(k, y), hy1, rfl⟩
    · exfalso
      apply hnd.1
      have he : e.1 = k := by rw [← hy1]
      rw [he]
      exact List.mem_map.2 ⟨(k, x), hx1, rfl⟩
    · exact ih hnd.2 hx1 hy1

/-- Claim C5: player B appears in player A's per-tick nearby-players view
iff B is alive, B ≠ A, and the squared distance is at most AOI_RADIUS²
(inclusive).  "Alive" is membership in the room's player map: the source
has no alive flag, eliminated players are deleted from the map.  The
hypotheses (keys are pairwise distinct and each record's id equals its
key) hold of every reachable room's player map. -/
theorem c5_aoi_membership (ps : List (String × Player))
    (hnd : (ps.map Prod.fst).Nodup) (hids : ∀ e ∈ ps, e.2.id = e.1)
    (aid : String) (A : Player) (bid : String) (B : Player) (hB : (bid, B) ∈ ps) :
    (∃ v ∈ nearbyPlayersFor ps aid A, v.id = bid) ↔
      (bid ≠ aid ∧ (B.x - A.x) ^ 2 + (B.y - A.y) ^ 2 ≤ AOI_RADIUS ^ 2) := by
  constructor
  · rintro ⟨v, hv, hvid⟩
    simp only [nearbyPlayersFor] at hv
    rcases List.mem_filterMap.1 hv with ⟨e, he, hfe⟩
    by_cases h1 : e.1 = aid
    · rw [if_pos h1] at hfe
      exact Option.noConfusion hfe
    · rw [if_neg h1] at hfe
      by_cases h2 : (e.2.x - A.x) ^ 2 + (e.2.y - A.y) ^ 2 ≤ AOI_RADIUS ^ 2
      · rw [if_pos h2] at hfe
        have hveq : v = playerView e.2 := (Option.some.inj hfe).symm
        have hid : e.1 = bid := by
          rw [← hids e he, ← hvid, hveq]
          rfl
        have heB : e.2 = B := by
          apply eq_of_mem_of_nodupKeys ps bid _ _ hnd _ hB
          rw [← hid]
          exact he
        constructor
        · rw [← hid]; exact h1
        · rw [← heB]; exact h2
      · rw [if_neg h2] at hfe
        exact Option.noConfusion hfe
  · rintro ⟨hne, hd⟩
    refine ⟨playerView B, ?_, ?_⟩
    · simp only [nearbyPlayersFor]
      apply List.mem_filterMap.2
      refine ⟨(bid, B), hB, ?_⟩
      have h1 : ¬ ((bid, B).1 = aid) := hne
      rw [if_neg h1, if_pos hd]
    · have := hids _ hB
      simpa [playerView] using this

/-- Witness for C5: a player 100√2 away (inside the 900 radius) appears in
the recipient's view. -/
theorem c5_aoi_membership_witness :
    ∃ v ∈ nearbyPlayersFor
      [("a", testPlayer "a" 100 100 120), ("b", testPlayer "b" 200 200 120)]
      "a" (testPlayer "a" 100 100 120), v.id = "b" := by
  apply (c5_aoi_membership _ (by decide) (by decide) "a" _ "b"
    (testPlayer "b" 200 200 120) (by simp)).2
  constructor
  · decide
  · norm_num [testPlayer, AOI_RADIUS]

end Blobbet

namespace Blobbet

/-! ### Claim C2: room assignment -/

theorem firstOpenRoom_eq (rooms : List (String × Room)) :
    (rooms.find? (fun e => decide (e.2.players.length < ROOM_CAP))).map Prod.snd =
      firstOpenRoom rooms := by
  induction rooms with
  | nil => simp [firstOpenRoom]
  | cons e rest ih =>
    by_cases h : e.2.players.length < 24
    · rw [List.find?_cons_of_pos _ (by simpa [ROOM_CAP] using h)]
      simp [firstOpenRoom, h]
    · rw [List.find?_cons_of_neg _ (by simpa [ROOM_CAP] using h)]
      simpa [firstOpenRoom, h] using ih

/-- Counterexample to claim C2 (mode-dependent room assignment with a
process-lifetime casual singleton and a waiting-state scan for
battle-royale): the room-assignment operation invoked on join takes no
mode argument at all, rooms carry no state, and assignment is purely by
capacity.  Concretely: at startup (registry `initState`) a casual-mode
join is assigned room-1, while after 24 casual-mode joins (`state24`,
reached from startup by join events only) a further casual-mode join is
assigned a freshly created room-2 — two casual joins of the same process
receive different rooms, so no singleton casual room exists. -/
theorem c2_counterexample :
    (getOrCreateRoomForJoin rng0 (initState rng0).rooms (initState rng0).ctr).1.id = "room-1" ∧
    (getOrCreateRoomForJoin rng0 state24.rooms state24.ctr).1.id = "room-2" ∧
    ("room-1" : String) ≠ "room-2" :=
  ⟨by decide, by decide, by decide⟩

/-- Claim C2 amended: room assignment ignores the requested mode; it
returns the first room in registry insertion order with fewer than 24
players (`ROOM_CAP`) leaving the registry unchanged, and if every room is
full it creates, registers and returns a fresh empty room named
`room-(size+1)` with a newly generated pellet field. -/
theorem c2_amended_capacity_scan (rng : ℕ → ℚ) (rooms : List (String × Room)) (k : ℕ) :
    (∀ r, firstOpenRoom rooms = some r →
      getOrCreateRoomForJoin rng rooms k = (r, rooms, k)) ∧
    (firstOpenRoom rooms = none →
      getOrCreateRoomForJoin rng rooms k =
        (⟨"room-" ++ toString (rooms.length + 1), [], (spawnPellets rng k).1⟩,
         mapSet ("room-" ++ toString (rooms.length + 1))
           ⟨"room-" ++ toString (rooms.length + 1), [], (spawnPellets rng k).1⟩ rooms,
         k + 3 * PELLET_COUNT)) := by
  constructor
  · intro r hr
    cases hf : rooms.find? (fun e => decide (e.2.players.length < ROOM_CAP)) with
    | none =>
      rw [← firstOpenRoom_eq, hf] at hr
      exact Option.noConfusion hr
    | some e =>
      rw [← firstOpenRoom_eq, hf, Option.map_some'] at hr
      have : e.2 = r := Option.some.inj hr
      simp [getOrCreateRoomForJoin, hf, this]
  · intro hn
    rw [← firstOpenRoom_eq, Option.map_eq_none'] at hn
    simp [getOrCreateRoomForJoin, hn, spawnPellets]

/-- Witness for the amended C2: a registry whose first room has space
gets that room back unchanged. -/
theorem c2_amended_capacity_scan_witness :
    getOrCreateRoomForJoin rng0 [("room-1", roomE)] 5 = (roomE, [("room-1", roomE)], 5) :=
  (c2_amended_capacity_scan rng0 [("room-1", roomE)] 5).1 roomE (by decide)

end Blobbet

namespace Blobbet

/-! ### Structural lemmas about the tick passes -/

theorem physPass_length (ps : List (String × Player)) :
    (physPass ps).length = ps.length :=
  List.length_map _ _

theorem physStep_mass (p : Player) : (physStep p).mass = p.mass := rfl

theorem physStep_lastInputAt (p : Player) : (physStep p).lastInputAt = p.lastInputAt := rfl

theorem mlookup_physPass (ps : List (String × Player)) (id : String) :
    mlookup id (physPass ps) = (mlookup id ps).map physStep := by
  induction ps with
  | nil => simp [physPass, mlookup]
  | cons e rest ih =>
    by_cases h : e.1 = id
    · simp [physPass, mlookup, h]
    · simpa [physPass, mlookup, h] using ih

theorem eatOne_mass_le (pls : List Pellet) (p : Player) :
    p.mass ≤ (eatOne pls p).1.mass := by
  simp only [eatOne]
  have : (0 : ℚ) ≤ PELLET_VALUE * (pls.countP fun pe => pelletHit p pe : ℕ) := by
    apply mul_nonneg
    · norm_num [PELLET_VALUE]
    · exact_mod_cast Nat.zero_le _
  linarith

theorem pelletPass_players_length (ps : List (String × Player)) (pls : List Pellet) :
    (pelletPass ps pls).1.length = ps.length := by
  induction ps generalizing pls with
  | nil => simp [pelletPass]
  | cons e rest ih => simp [pelletPass, ih]

theorem pelletPass_pellets_length_le (ps : List (String × Player)) (pls : List Pellet) :
    (pelletPass ps pls).2.length ≤ pls.length := by
  induction ps generalizing pls with
  | nil => simp [pelletPass]
  | cons e rest ih =>
    simp only [pelletPass]
    calc (pelletPass rest (eatOne pls e.2).2).2.length
        ≤ (eatOne pls e.2).2.length := ih _
      _ ≤ pls.length := List.length_filter_le _ _

theorem mlookup_pelletPass (ps : List (String × Player)) (pls : List Pellet)
    (id : String) (p : Player) (hp : mlookup id ps = some p) :
    ∃ n : ℕ, mlookup id (pelletPass ps pls).1 =
      some { p with mass := p.mass + PELLET_VALUE * n } := by
  induction ps generalizing pls with
  | nil => simp [mlookup] at hp
  | cons e rest ih =>
    by_cases h : e.1 = id
    · simp only [mlookup, h, if_pos] at hp
      have hp' : e.2 = p := Option.some.inj hp
      refine ⟨(pls.countP fun pe => pelletHit e.2 pe), ?_⟩
      subst hp'
      simp [pelletPass, mlookup, h, eatOne]
    · simp only [mlookup, h, if_neg, not_false_iff] at hp
      rcases ih (eatOne pls e.2).2 hp with ⟨n, hn⟩
      exact ⟨n, by simpa [pelletPass, mlookup, h] using hn⟩

theorem pelletPass_mem (ps : List (String × Player)) (pls : List Pellet) :
    ∀ e ∈ (pelletPass ps pls).1, ∃ e₀ ∈ ps, ∃ n : ℕ,
      e = (e₀.1, { e₀.2 with mass := e₀.2.mass + PELLET_VALUE * n }) := by
  induction ps generalizing pls with
  | nil => simp [pelletPass]
  | cons f rest ih =>
    intro e he
    simp only [pelletPass, List.mem_cons] at he
    rcases he with he | he
    · refine ⟨f, List.mem_cons_self _ _, (pls.countP fun pe => pelletHit f.2 pe), ?_⟩
      rw [he]
      simp [eatOne]
    · rcases ih _ _ he with ⟨e₀, he₀, n, hn⟩
      exact ⟨e₀, List.mem_cons_of_mem _ he₀, n, hn⟩

theorem replenish_length (rng : ℕ → ℚ) :
    ∀ (fuel : ℕ) (pls : List Pellet) (k : ℕ),
      PELLET_COUNT - pls.length ≤ fuel → pls.length ≤ PELLET_COUNT →
      (replenish rng pls k).1.length = PELLET_COUNT := by
  intro fuel
  induction fuel with
  | zero =>
    intro pls k hf hle
    rw [replenish]
    have h : ¬ pls.length < PELLET_COUNT := by omega
    simp only [h, if_false]
    omega
  | succ n ih =>
    intro pls k hf hle
    rw [replenish]
    by_cases h : pls.length < PELLET_COUNT
    · simp only [h, if_true]
      apply ih
      · simp only [List.length_append, List.length_singleton]
        omega
      · simp only [List.length_append, List.length_singleton]
        omega
    · simp only [h, if_false]
      omega

theorem replenish_length_eq (rng : ℕ → ℚ) (pls : List Pellet) (k : ℕ)
    (h : pls.length ≤ PELLET_COUNT) :
    (replenish rng pls k).1.length = PELLET_COUNT :=
  replenish_length rng (PELLET_COUNT - pls.length) pls k le_rfl h

theorem tickRoom_players_length_le (rng : ℕ → ℚ) (k : ℕ) (room : Room) :
    (tickRoom rng k room).room.players.length ≤ room.players.length := by
  calc (tickRoom rng k room).room.players.length
      ≤ (pelletPass (physPass room.players) room.pellets).1.length :=
        pvpPass_players_length_le _
    _ = (physPass room.players).length := pelletPass_players_length _ _
    _ = room.players.length := physPass_length _

theorem tickRoom_pellets_length (rng : ℕ → ℚ) (k : ℕ) (room : Room)
    (h : room.pellets.length ≤ PELLET_COUNT) :
    (tickRoom rng k room).room.pellets.length = PELLET_COUNT := by
  simp only [tickRoom]
  exact replenish_length_eq rng _ k
    (le_trans (pelletPass_pellets_length_le _ _) h)

theorem tickRooms_mem (rng : ℕ → ℚ) :
    ∀ (rooms : List (String × Room)) (k : ℕ) (e : String × Room),
      e ∈ (tickRooms rng rooms k).1 →
      ∃ e₀ ∈ rooms, ∃ kk : ℕ, e = (e₀.1, (tickRoom rng kk e₀.2).room) := by
  intro rooms
  induction rooms with
  | nil => intro k e he; simp [tickRooms] at he
  | cons f rest ih =>
    intro k e he
    simp only [tickRooms, List.mem_cons] at he
    rcases he with he | he
    · exact ⟨f, List.mem_cons_self _ _, k, he⟩
    · rcases ih _ _ he with ⟨e₀, he₀, kk, hk⟩
      exact ⟨e₀, List.mem_cons_of_mem _ he₀, kk, hk⟩

end Blobbet

namespace Blobbet

/-! ### Events emitted by a tick -/

theorem koTargets_append (a b : List Event) :
    koTargets (a ++ b) = koTargets a ++ koTargets b :=
  List.filterMap_append _ _ _

theorem koTargets_snapshotPass (ps : List (String × Player)) (pls : List Pellet) :
    koTargets (snapshotPass ps pls) = [] := by
  simp only [snapshotPass, koTargets, List.filterMap_map]
  apply List.filterMap_eq_nil_iff.2
  intro a _
  rfl

theorem koTargets_koEvents (log : List Absorption) :
    koTargets (log.map fun a => Event.ko a.small a.big) = log.map Absorption.small := by
  induction log with
  | nil => simp [koTargets]
  | cons a rest ih =>
    simp only [koTargets, List.map_cons, List.filterMap_cons] at ih ⊢
    rw [ih]

theorem koTargets_tickRoom (rng : ℕ → ℚ) (k : ℕ) (room : Room) :
    koTargets (tickRoom rng k room).events =
      (pvpPass (pelletPass (physPass room.players) room.pellets).1).2.map Absorption.small := by
  simp only [tickRoom]
  rw [koTargets_append, koTargets_koEvents, koTargets_snapshotPass, List.append_nil]

/-! ### Mass bounds and player survival across one whole tick -/

theorem physPass_mass_lb (c : ℚ) (ps : List (String × Player))
    (h : ∀ e ∈ ps, c ≤ e.2.mass) : ∀ e ∈ physPass ps, c ≤ e.2.mass := by
  intro e he
  rcases List.mem_map.1 he with ⟨e₀, he₀, rfl⟩
  exact h e₀ he₀

theorem pelletPass_mass_lb (c : ℚ) (ps : List (String × Player)) (pls : List Pellet)
    (h : ∀ e ∈ ps, c ≤ e.2.mass) : ∀ e ∈ (pelletPass ps pls).1, c ≤ e.2.mass := by
  intro e he
  rcases pelletPass_mem ps pls e he with ⟨e₀, he₀, n, rfl⟩
  have h5 : (0 : ℚ) ≤ PELLET_VALUE * (n : ℚ) := by
    apply mul_nonneg
    · norm_num [PELLET_VALUE]
    · exact_mod_cast Nat.zero_le _
  have := h e₀ he₀
  simp only
  linarith

theorem tickRoom_mass_lb (c : ℚ) (hc : 0 ≤ c) (rng : ℕ → ℚ) (k : ℕ) (room : Room)
    (h : ∀ e ∈ room.players, c ≤ e.2.mass) :
    ∀ e ∈ (tickRoom rng k room).room.players, c ≤ e.2.mass :=
  pvpPass_mass_lb c hc _ (pelletPass_mass_lb c _ _ (physPass_mass_lb c _ h))

/-- Claim C8 amended: the source has no AFK machinery — `lastInputAt` is
written by the input handler but never read, no warning event exists, and
a tick removes a player from the room only through PvP absorption
(signalled by a `ko` event): any player of the room that is not a `ko`
target of the tick is still in the room afterwards, with its mass not
decreased and its `lastInputAt` untouched, no matter how stale that
timestamp is.  The mass-nonnegativity hypothesis holds of every reachable
room. -/
theorem c8_amended_no_afk_eviction (rng : ℕ → ℚ) (k : ℕ) (room : Room)
    (h0 : ∀ e ∈ room.players, 0 ≤ e.2.mass)
    (id : String) (p : Player) (hp : mlookup id room.players = some p)
    (hni : id ∉ koTargets (tickRoom rng k room).events) :
    ∃ p', mlookup id (tickRoom rng k room).room.players = some p' ∧
      p.mass ≤ p'.mass ∧ p'.lastInputAt = p.lastInputAt := by
  rw [koTargets_tickRoom] at hni
  have hphys : mlookup id (physPass room.players) = some (physStep p) := by
    rw [mlookup_physPass, hp, Option.map_some']
  rcases mlookup_pelletPass (physPass room.players) room.pellets id (physStep p) hphys with
    ⟨n, hn⟩
  have h0phys : ∀ e ∈ physPass room.players, 0 ≤ e.2.mass := physPass_mass_lb 0 _ h0
  have h0pp : ∀ e ∈ (pelletPass (physPass room.players) room.pellets).1, 0 ≤ e.2.mass :=
    pelletPass_mass_lb 0 _ _ h0phys
  rcases pvpPass_lookup_or (pelletPass (physPass room.players) room.pellets).1
    h0pp id _ hn hni with ⟨p', hp', hm, hl⟩
  refine ⟨p', hp', ?_, ?_⟩
  · have h5 : (0 : ℚ) ≤ PELLET_VALUE * (n : ℚ) := by
      apply mul_nonneg
      · norm_num [PELLET_VALUE]
      · exact_mod_cast Nat.zero_le _
    have hm' : p.mass + PELLET_VALUE * (n : ℚ) ≤ p'.mass := by
      simpa [physStep] using hm
    linarith
  · rw [hl]
    simp [physStep]

end Blobbet

namespace Blobbet

/-! ### Case analyses of the socket handlers -/

theorem joinFn_rooms_cases (rng : ℕ → ℚ) (s : ServerState) (sock name mode : String)
    (now : ℤ) :
    ∀ e ∈ (joinFn rng s sock name mode now).rooms,
      e ∈ s.rooms ∨
      (e.2.players = [] ∧ e.2.pellets = (spawnPellets rng s.ctr).1) ∨
      ∃ (rm : Room) (p : Player), p.mass = START_MASS ∧
        e.2 = { rm with players := mapSet sock p rm.players } ∧
        ((rm ∈ s.rooms.map Prod.snd ∧ rm.players.length < ROOM_CAP) ∨
         (rm.players = [] ∧ rm.pellets = (spawnPellets rng s.ctr).1)) := by
  intro e he
  simp only [joinFn] at he
  cases hf : s.rooms.find? (fun e => decide (e.2.players.length < ROOM_CAP)) with
  | some f =>
    simp only [getOrCreateRoomForJoin, hf] at he
    rcases mem_mapSet _ _ _ _ he with h1 | h1
    · right; right
      refine ⟨f.2, _, rfl, by rw [h1], Or.inl ⟨?_, ?_⟩⟩
      · exact List.mem_map.2 ⟨f, List.mem_of_find?_eq_some hf, rfl⟩
      · have hd := List.find?_some hf
        exact of_decide_eq_true hd
    · exact Or.inl h1
  | none =>
    simp only [getOrCreateRoomForJoin, hf] at he
    rcases mem_mapSet _ _ _ _ he with h1 | h1
    · right; right
      exact ⟨⟨"room-" ++ toString (s.rooms.length + 1), [], (spawnPellets rng s.ctr).1⟩,
        _, rfl, by rw [h1], Or.inr ⟨rfl, rfl⟩⟩
    · rcases mem_mapSet _ _ _ _ h1 with h2 | h2
      · right; left
        rw [h2]
        exact ⟨rfl, rfl⟩
      · exact Or.inl h2

theorem inputFn_rooms_cases (s : ServerState) (sock : String) (vx vy : ℚ) (now : ℤ) :
    ∀ e ∈ (inputFn s sock vx vy now).rooms,
      e ∈ s.rooms ∨
      ∃ (rm : Room) (p : Player),
        rm ∈ s.rooms.map Prod.snd ∧ mlookup sock rm.players = some p ∧
        e.2 = { rm with
                players := mapSet sock { p with vx := vx, vy := vy, lastInputAt := now }
                  rm.players } := by
  intro e he
  cases h1 : mlookup sock s.conns with
  | none =>
    simp only [inputFn, h1] at he
    exact Or.inl he
  | some rid =>
  cases h2 : mlookup rid s.rooms with
  | none =>
    simp only [inputFn, h1, h2] at he
    exact Or.inl he
  | some room =>
  cases h3 : mlookup sock room.players with
  | none =>
    simp only [inputFn, h1, h2, h3] at he
    exact Or.inl he
  | some p =>
  simp only [inputFn, h1, h2, h3] at he
  rcases mem_mapSet _ _ _ _ he with h4 | h4
  · right
    exact ⟨room, p, List.mem_map.2 ⟨(rid, room), mlookup_mem _ _ _ h2, rfl⟩, h3, by rw [h4]⟩
  · exact Or.inl h4

theorem disconnectFn_rooms_cases (s : ServerState) (sock : String) :
    ∀ e ∈ (disconnectFn s sock).rooms,
      e ∈ s.rooms ∨
      ∃ rm : Room, rm ∈ s.rooms.map Prod.snd ∧
        e.2 = { rm with players := mapDelete sock rm.players } := by
  intro e he
  cases h1 : mlookup sock s.conns with
  | none =>
    simp only [disconnectFn, h1] at he
    exact Or.inl he
  | some rid =>
  cases h2 : mlookup rid s.rooms with
  | none =>
    simp only [disconnectFn, h1, h2] at he
    exact Or.inl he
  | some room =>
  simp only [disconnectFn, h1, h2] at he
  rcases mem_mapSet _ _ _ _ he with h4 | h4
  · right
    exact ⟨room, List.mem_map.2 ⟨(rid, room), mlookup_mem _ _ _ h2, rfl⟩, by rw [h4]⟩
  · exact Or.inl h4

theorem tickRoom_mass_monotone (rng : ℕ → ℚ) (k : ℕ) (room : Room)
    (h0 : ∀ e ∈ room.players, 0 ≤ e.2.mass)
    (id : String) (p p' : Player)
    (hp : mlookup id room.players = some p)
    (hp' : mlookup id (tickRoom rng k room).room.players = some p') :
    p.mass ≤ p'.mass := by
  have hphys : mlookup id (physPass room.players) = some (physStep p) := by
    rw [mlookup_physPass, hp, Option.map_some']
  rcases mlookup_pelletPass (physPass room.players) room.pellets id (physStep p) hphys with
    ⟨n, hn⟩
  have h0pp : ∀ e ∈ (pelletPass (physPass room.players) room.pellets).1, 0 ≤ e.2.mass :=
    pelletPass_mass_lb 0 _ _ (physPass_mass_lb 0 _ h0)
  rcases pvpPass_lookup_back (pelletPass (physPass room.players) room.pellets).1
    h0pp id p' hp' with ⟨q, hq, hle⟩
  have hqeq : q = { physStep p with mass := (physStep p).mass + PELLET_VALUE * (n : ℚ) } :=
    Option.some.inj (hq.symm.trans hn)
  have h5 : (0 : ℚ) ≤ PELLET_VALUE * (n : ℚ) := by
    apply mul_nonneg
    · norm_num [PELLET_VALUE]
    · exact_mod_cast Nat.zero_le _
  have : q.mass = p.mass + PELLET_VALUE * (n : ℚ) := by
    rw [hqeq]
    simp [physStep]
  linarith [hle, this.symm.le, this.le]

end Blobbet

namespace Blobbet

/-! ### Reachability invariants -/

theorem reachable_pellet_count (rng : ℕ → ℚ) (s : ServerState) (h : Reachable rng s) :
    ∀ e ∈ s.rooms, e.2.pellets.length = PELLET_COUNT := by
  induction h with
  | init =>
    intro e he
    simp only [initState, List.mem_singleton] at he
    rw [he]
    exact length_spawnPellets rng 0
  | join s sock name mode now hr ih =>
    intro e he
    rcases joinFn_rooms_cases rng s sock name mode now e he with h1 | h1 | ⟨rm, p, hp, he2, hrm⟩
    · exact ih e h1
    · rw [h1.2]; exact length_spawnPellets _ _
    · rw [he2]
      show rm.pellets.length = PELLET_COUNT
      rcases hrm with ⟨hmem, _⟩ | ⟨_, hpel⟩
      · rcases List.mem_map.1 hmem with ⟨e₀, he₀, rfl⟩
        exact ih e₀ he₀
      · rw [hpel]; exact length_spawnPellets _ _
  | input s sock vx vy now hr ih =>
    intro e he
    rcases inputFn_rooms_cases s sock vx vy now e he with h1 | ⟨rm, p, hmem, _, he2⟩
    · exact ih e h1
    · rw [he2]
      show rm.pellets.length = PELLET_COUNT
      rcases List.mem_map.1 hmem with ⟨e₀, he₀, rfl⟩
      exact ih e₀ he₀
  | disconnect s sock hr ih =>
    intro e he
    rcases disconnectFn_rooms_cases s sock e he with h1 | ⟨rm, hmem, he2⟩
    · exact ih e h1
    · rw [he2]
      show rm.pellets.length = PELLET_COUNT
      rcases List.mem_map.1 hmem with ⟨e₀, he₀, rfl⟩
      exact ih e₀ he₀
  | tick s hr ih =>
    intro e he
    simp only [tickServer] at he
    rcases tickRooms_mem rng s.rooms s.ctr e he with ⟨e₀, he₀, kk, rfl⟩
    exact tickRoom_pellets_length rng kk e₀.2 (le_of_eq (ih e₀ he₀))

theorem reachable_room_cap (rng : ℕ → ℚ) (s : ServerState) (h : Reachable rng s) :
    ∀ e ∈ s.rooms, e.2.players.length ≤ ROOM_CAP := by
  induction h with
  | init =>
    intro e he
    simp only [initState, List.mem_singleton] at he
    rw [he]
    simp [ROOM_CAP]
  | join s sock name mode now hr ih =>
    intro e he
    rcases joinFn_rooms_cases rng s sock name mode now e he with h1 | h1 | ⟨rm, p, hp, he2, hrm⟩
    · exact ih e h1
    · rw [h1.1]; simp [ROOM_CAP]
    · rw [he2]
      show (mapSet sock p rm.players).length ≤ ROOM_CAP
      rcases hrm with ⟨_, hlt⟩ | ⟨hnil, _⟩
      · have := length_mapSet_le sock p rm.players
        omega
      · rw [hnil]
        simp [mapSet, ROOM_CAP]
  | input s sock vx vy now hr ih =>
    intro e he
    rcases inputFn_rooms_cases s sock vx vy now e he with h1 | ⟨rm, p, hmem, hlook, he2⟩
    · exact ih e h1
    · rw [he2]
      show (mapSet sock _ rm.players).length ≤ ROOM_CAP
      rw [length_mapSet_of_mlookup _ _ p _ hlook]
      rcases List.mem_map.1 hmem with ⟨e₀, he₀, rfl⟩
      exact ih e₀ he₀
  | disconnect s sock hr ih =>
    intro e he
    rcases disconnectFn_rooms_cases s sock e he with h1 | ⟨rm, hmem, he2⟩
    · exact ih e h1
    · rw [he2]
      show (mapDelete sock rm.players).length ≤ ROOM_CAP
      rcases List.mem_map.1 hmem with ⟨e₀, he₀, rfl⟩
      exact le_trans (length_mapDelete_le _ _) (ih e₀ he₀)
  | tick s hr ih =>
    intro e he
    simp only [tickServer] at he
    rcases tickRooms_mem rng s.rooms s.ctr e he with ⟨e₀, he₀, kk, rfl⟩
    exact le_trans (tickRoom_players_length_le rng kk e₀.2) (ih e₀ he₀)

theorem reachable_mass_lb (rng : ℕ → ℚ) (s : ServerState) (h : Reachable rng s) :
    ∀ e ∈ s.rooms, ∀ q ∈ e.2.players, START_MASS ≤ q.2.mass := by
  induction h with
  | init =>
    intro e he
    simp only [initState, List.mem_singleton] at he
    rw [he]
    intro q hq
    simp at hq
  | join s sock name mode now hr ih =>
    intro e he
    rcases joinFn_rooms_cases rng s sock name mode now e he with h1 | h1 | ⟨rm, p, hp, he2, hrm⟩
    · exact ih e h1
    · rw [h1.1]
      intro q hq
      simp at hq
    · rw [he2]
      intro q hq
      rcases mem_mapSet _ _ _ _ hq with h2 | h2
      · rw [h2]
        exact le_of_eq hp.symm
      · rcases hrm with ⟨hmem, _⟩ | ⟨hnil, _⟩
        · rcases List.mem_map.1 hmem with ⟨e₀, he₀, rfl⟩
          exact ih e₀ he₀ q h2
        · rw [hnil] at h2
          simp at h2
  | input s sock vx vy now hr ih =>
    intro e he
    rcases inputFn_rooms_cases s sock vx vy now e he with h1 | ⟨rm, p, hmem, hlook, he2⟩
    · exact ih e h1
    · rw [he2]
      intro q hq
      rcases List.mem_map.1 hmem with ⟨e₀, he₀, rfl⟩
      rcases mem_mapSet _ _ _ _ hq with h2 | h2
      · rw [h2]
        show START_MASS ≤ p.mass
        exact ih e₀ he₀ (sock, p) (mlookup_mem _ _ _ hlook)
      · exact ih e₀ he₀ q h2
  | disconnect s sock hr ih =>
    intro e he
    rcases disconnectFn_rooms_cases s sock e he with h1 | ⟨rm, hmem, he2⟩
    · exact ih e h1
    · rw [he2]
      intro q hq
      rcases List.mem_map.1 hmem with ⟨e₀, he₀, rfl⟩
      exact ih e₀ he₀ q (mem_mapDelete _ _ _ hq)
  | tick s hr ih =>
    intro e he
    simp only [tickServer] at he
    rcases tickRooms_mem rng s.rooms s.ctr e he with ⟨e₀, he₀, kk, rfl⟩
    exact tickRoom_mass_lb START_MASS (by norm_num [START_MASS]) rng kk e₀.2 (ih e₀ he₀)

/-! ### Mass is untouched by the input and disconnect handlers -/

theorem inputFn_mass_monotone (s : ServerState) (sock : String) (vx vy : ℚ) (now : ℤ)
    (rid : String) (room room' : Room) (id : String) (p p' : Player)
    (h1 : mlookup rid s.rooms = some room) (h2 : mlookup id room.players = some p)
    (h3 : mlookup rid (inputFn s sock vx vy now).rooms = some room')
    (h4 : mlookup id room'.players = some p') :
    p.mass ≤ p'.mass := by
  cases hc : mlookup sock s.conns with
  | none =>
    simp only [inputFn, hc] at h3
    have hr : room' = room := Option.some.inj (h3.symm.trans h1)
    rw [hr] at h4
    rw [Option.some.inj (h4.symm.trans h2)]
  | some rid0 =>
  cases hr0 : mlookup rid0 s.rooms with
  | none =>
    simp only [inputFn, hc, hr0] at h3
    have hr : room' = room := Option.some.inj (h3.symm.trans h1)
    rw [hr] at h4
    rw [Option.some.inj (h4.symm.trans h2)]
  | some room0 =>
  cases hp0 : mlookup sock room0.players with
  | none =>
    simp only [inputFn, hc, hr0, hp0] at h3
    have hr : room' = room := Option.some.inj (h3.symm.trans h1)
    rw [hr] at h4
    rw [Option.some.inj (h4.symm.trans h2)]
  | some p0 =>
  simp only [inputFn, hc, hr0, hp0] at h3
  by_cases hrr : rid = rid0
  · subst hrr
    rw [mlookup_mapSet_self] at h3
    have hroom : room = room0 := Option.some.inj (h1.symm.trans hr0)
    have hr' : room' = { room0 with
        players := mapSet sock { p0 with vx := vx, vy := vy, lastInputAt := now }
          room0.players } := (Option.some.inj h3).symm
    rw [hr'] at h4
    dsimp only at h4
    by_cases hid : id = sock
    · subst hid
      rw [mlookup_mapSet_self] at h4
      have hpz : p = p0 := by
        rw [hroom] at h2
        exact Option.some.inj (h2.symm.trans hp0)
      rw [← Option.some.inj h4, hpz]
    · rw [mlookup_mapSet_ne _ _ _ _ hid] at h4
      rw [hroom] at h2
      rw [Option.some.inj (h4.symm.trans h2)]
  · rw [mlookup_mapSet_ne _ _ _ _ hrr] at h3
    have hr : room' = room := Option.some.inj (h3.symm.trans h1)
    rw [hr] at h4
    rw [Option.some.inj (h4.symm.trans h2)]

theorem disconnectFn_mass_monotone (s : ServerState) (sock : String)
    (rid : String) (room room' : Room) (id : String) (p p' : Player)
    (h1 : mlookup rid s.rooms = some room) (h2 : mlookup id room.players = some p)
    (h3 : mlookup rid (disconnectFn s sock).rooms = some room')
    (h4 : mlookup id room'.players = some p') :
    p.mass ≤ p'.mass := by
  cases hc : mlookup sock s.conns with
  | none =>
    simp only [disconnectFn, hc] at h3
    have hr : room' = room := Option.some.inj (h3.symm.trans h1)
    rw [hr] at h4
    rw [Option.some.inj (h4.symm.trans h2)]
  | some rid0 =>
  cases hr0 : mlookup rid0 s.rooms with
  | none =>
    simp only [disconnectFn, hc, hr0] at h3
    have hr : room' = room := Option.some.inj (h3.symm.trans h1)
    rw [hr] at h4
    rw [Option.some.inj (h4.symm.trans h2)]
  | some room0 =>
  simp only [disconnectFn, hc, hr0] at h3
  by_cases hrr : rid = rid0
  · subst hrr
    rw [mlookup_mapSet_self] at h3
    have hroom : room = room0 := Option.some.inj (h1.symm.trans hr0)
    have hr' : room' = { room0 with players := mapDelete sock room0.players } :=
      (Option.some.inj h3).symm
    rw [hr'] at h4
    dsimp only at h4
    by_cases hid : id = sock
    · subst hid
      rw [mlookup_mapDelete_self] at h4
      exact Option.noConfusion h4
    · rw [mlookup_mapDelete_ne _ _ _ hid] at h4
      rw [hroom] at h2
      rw [Option.some.inj (h4.symm.trans h2)]
  · rw [mlookup_mapSet_ne _ _ _ _ hrr] at h3
    have hr : room' = room := Option.some.inj (h3.symm.trans h1)
    rw [hr] at h4
    rw [Option.some.inj (h4.symm.trans h2)]

end Blobbet

namespace Blobbet

/-- Claim C3: for every room and every tick, the pellet collection ends
the tick at exactly PELLET_COUNT.  First part: a tick on any room whose
pellet count is at most the target (consumption only removes pellets,
replenishment pushes until the target is reached, and the later PvP and
snapshot passes do not touch pellets) ends with exactly PELLET_COUNT
pellets.  Second part: in every reachable process state — in particular
at the end of every tick — every room holds exactly PELLET_COUNT
pellets, so the first part's hypothesis always holds. -/
theorem c3_pellet_count_invariant :
    (∀ (rng : ℕ → ℚ) (k : ℕ) (room : Room), room.pellets.length ≤ PELLET_COUNT →
        (tickRoom rng k room).room.pellets.length = PELLET_COUNT) ∧
    (∀ (rng : ℕ → ℚ) (s : ServerState), Reachable rng s →
        ∀ e ∈ s.rooms, e.2.pellets.length = PELLET_COUNT) :=
  ⟨fun rng k room h => tickRoom_pellets_length rng k room h,
   fun rng s h => reachable_pellet_count rng s h⟩

/-- Witness for C3: a tick on an empty room replenishes to exactly the
target, and the startup room already sits at the target. -/
theorem c3_pellet_count_invariant_witness :
    (tickRoom rng0 0 roomE).room.pellets.length = PELLET_COUNT ∧
    (⟨"room-1", [], (spawnPellets rng0 0).1⟩ : Room).pellets.length = PELLET_COUNT :=
  ⟨c3_pellet_count_invariant.1 rng0 0 roomE (by simp [roomE]),
   c3_pellet_count_invariant.2 rng0 _ Reachable.init
     ("room-1", ⟨"room-1", [], (spawnPellets rng0 0).1⟩) (by simp [initState])⟩

/-- Claim C10: every room's player count never exceeds ROOM_CAP = 24.
The join path inserts only into a room found with strictly fewer than
ROOM_CAP players (or into a fresh empty room), insertion adds at most
one entry, and no other operation grows a room's player map — so the
bound holds in every reachable process state. -/
theorem c10_room_cap_invariant (rng : ℕ → ℚ) (s : ServerState) (h : Reachable rng s) :
    ∀ e ∈ s.rooms, e.2.players.length ≤ ROOM_CAP :=
  reachable_room_cap rng s h

/-- Witness for C10 at the startup state. -/
theorem c10_room_cap_invariant_witness :
    (⟨"room-1", [], (spawnPellets rng0 0).1⟩ : Room).players.length ≤ ROOM_CAP :=
  c10_room_cap_invariant rng0 _ Reachable.init
    ("room-1", ⟨"room-1", [], (spawnPellets rng0 0).1⟩) (by simp [initState])

/-- Claim C6 amended: (a) in every reachable state every stored session
mass is at least START_MASS; and the mass stored for a session id is
never decreased by the input handler (b), the disconnect handler (c), or
a game-loop tick (d) — the absorbed are removed, survivors only gain.
The original claim fails only for the join handler: a second `join` on a
connected socket rebuilds the session record with mass reset to
START_MASS (see the counterexample). -/
theorem c6_amended_mass_floor_and_monotonicity :
    (∀ (rng : ℕ → ℚ) (s : ServerState), Reachable rng s →
        ∀ e ∈ s.rooms, ∀ q ∈ e.2.players, START_MASS ≤ q.2.mass) ∧
    (∀ (s : ServerState) (sock : String) (vx vy : ℚ) (now : ℤ) (rid : String)
        (room room' : Room) (id : String) (p p' : Player),
        mlookup rid s.rooms = some room → mlookup id room.players = some p →
        mlookup rid (inputFn s sock vx vy now).rooms = some room' →
        mlookup id room'.players = some p' → p.mass ≤ p'.mass) ∧
    (∀ (s : ServerState) (sock rid : String) (room room' : Room)
        (id : String) (p p' : Player),
        mlookup rid s.rooms = some room → mlookup id room.players = some p →
        mlookup rid (disconnectFn s sock).rooms = some room' →
        mlookup id room'.players = some p' → p.mass ≤ p'.mass) ∧
    (∀ (rng : ℕ → ℚ) (k : ℕ) (room : Room), (∀ e ∈ room.players, 0 ≤ e.2.mass) →
        ∀ (id : String) (p p' : Player), mlookup id room.players = some p →
        mlookup id (tickRoom rng k room).room.players = some p' → p.mass ≤ p'.mass) :=
  ⟨fun rng s h => reachable_mass_lb rng s h,
   fun s sock vx vy now rid room room' id p p' h1 h2 h3 h4 =>
     inputFn_mass_monotone s sock vx vy now rid room room' id p p' h1 h2 h3 h4,
   fun s sock rid room room' id p p' h1 h2 h3 h4 =>
     disconnectFn_mass_monotone s sock rid room room' id p p' h1 h2 h3 h4,
   fun rng k room h0 id p p' hp hp' =>
     tickRoom_mass_monotone rng k room h0 id p p' hp hp'⟩

/-- Witness for the amended C6: one tick of a one-player pellet-free room
does not decrease the player's mass. -/
theorem c6_amended_mass_floor_and_monotonicity_witness :
    (testPlayer "s1" 200 200 120).mass ≤ (physStep (testPlayer "s1" 200 200 120)).mass := by
  have hlook : mlookup "s1"
      (tickRoom rng0 0 ⟨"r", [("s1", testPlayer "s1" 200 200 120)], []⟩).room.players =
      some (physStep (testPlayer "s1" 200 200 120)) := by
    simp [tickRoom, physPass, pelletPass, eatOne, pvpPass, pvpOuter, mlookup]
  exact c6_amended_mass_floor_and_monotonicity.2.2.2 rng0 0
    ⟨"r", [("s1", testPlayer "s1" 200 200 120)], []⟩
    (by intro e he
        simp only [List.mem_singleton] at he
        rw [he]
        norm_num [testPlayer])
    "s1" _ _ (by simp [mlookup]) hlook

end Blobbet

namespace Blobbet

/-! ### Concrete evaluation of the double-join scenario -/

theorem mkPelletAt_rngC6_zero : ∀ k : ℕ, k ≠ 1 → k + 1 ≠ 1 → k + 1 ≠ 2 → k + 2 ≠ 2 → k ≠ 2 → k + 2 ≠ 1 →
    mkPelletAt rngC6 k = pellet40 := by
  intro k h1 h2 h3 h4 h5 h6
  have e0 : rngC6 k = 0 := by simp only [rngC6]; rw [if_neg (by tauto)]
  have e1 : rngC6 (k + 1) = 0 := by simp only [rngC6]; rw [if_neg (by tauto)]
  have e2 : rngC6 (k + 2) = 0 := by simp only [rngC6]; rw [if_neg (by tauto)]
  simp only [mkPelletAt, e0, e1, e2, pellet40, randIn, W, H]
  norm_num

theorem spawnC6 : (spawnPellets rngC6 0).1 = pelletC6 :: List.replicate 399 pellet40 := by
  simp only [spawnPellets]
  rw [show PELLET_COUNT = 399 + 1 from by norm_num [PELLET_COUNT], List.range_succ_eq_map]
  rw [List.map_cons]
  congr 1
  · have e0 : rngC6 (0 + 3 * 0) = 0 := by simp [rngC6]
    have e1 : rngC6 (0 + 3 * 0 + 1) = 4 / 73 := by simp [rngC6]
    have e2 : rngC6 (0 + 3 * 0 + 2) = 4 / 73 := by simp [rngC6]
    simp only [mkPelletAt, e0, e1, e2, pelletC6, randIn, W, H]
    norm_num
  · rw [List.map_map]
    apply List.eq_replicate_iff.2
    refine ⟨by simp, ?_⟩
    intro b hb
    rcases List.mem_map.1 hb with ⟨n, hn, rfl⟩
    have hn' : n < 399 := List.mem_range.1 hn
    show mkPelletAt rngC6 (0 + 3 * (n + 1)) = pellet40
    apply mkPelletAt_rngC6_zero <;> omega

theorem spawn0 : (spawnPellets rng0 0).1 = List.replicate 400 pellet40 := by
  simp only [spawnPellets]
  apply List.eq_replicate_iff.2
  refine ⟨by simp [PELLET_COUNT], ?_⟩
  intro b hb
  rcases List.mem_map.1 hb with ⟨n, hn, rfl⟩
  simp only [mkPelletAt, rng0, pellet40, randIn, W, H]
  norm_num

theorem initC6_eq : initState rngC6 =
    ⟨[("room-1", ⟨"room-1", [], pelletC6 :: List.replicate 399 pellet40⟩)], [], 1200⟩ := by
  have h2 : (spawnPellets rngC6 0).2 = 1200 := by simp [spawnPellets, PELLET_COUNT]
  rw [initState, spawnC6, h2]

theorem init0_eq : initState rng0 =
    ⟨[("room-1", ⟨"room-1", [], List.replicate 400 pellet40⟩)], [], 1200⟩ := by
  have h2 : (spawnPellets rng0 0).2 = 1200 := by simp [spawnPellets, PELLET_COUNT]
  rw [initState, spawn0, h2]

end Blobbet

namespace Blobbet

theorem sC6a_eq : sC6a =
    ⟨[("room-1", ⟨"room-1", [("s1", pC6)], pelletC6 :: List.replicate 399 pellet40⟩)],
     [("s1", "room-1")], 1202⟩ := by
  have hname : ((if ("Ann" : String) = "" then "Blob" else "Ann").take 12) = "Ann" := by decide
  have hmode : (if ("casual" : String) = "" then "free" else "casual") = "casual" := by decide
  have h1200 : rngC6 1200 = 0 := by simp [rngC6]
  have h1201 : rngC6 (1200 + 1) = 0 := by simp [rngC6]
  rw [sC6a, initC6_eq]
  simp only [joinFn, getOrCreateRoomForJoin]
  rw [List.find?_cons_of_pos _ (by decide)]
  simp only [mapSet, mlookup, hname, hmode, h1200, h1201, ServerState.mk.injEq,
    Room.mk.injEq, Player.mk.injEq, Prod.mk.injEq]
  norm_num [pC6, randIn, W, H, START_MASS]

end Blobbet

namespace Blobbet

theorem pelletHit_pC6_pelletC6 : pelletHit pC6 pelletC6 = true := by
  simp only [pelletHit, pelletC6, pC6, pelletCondB, Bool.or_eq_true, decide_eq_true_eq]
  left
  norm_num

theorem pelletHit_pC6_pellet40 : pelletHit pC6 pellet40 = false := by
  simp only [pelletHit, pellet40, pC6, pelletCondB, Bool.or_eq_false_iff,
    decide_eq_false_iff_not]
  constructor <;> norm_num

theorem physStep_pC6 : physStep pC6 = pC6 := by
  simp only [physStep, pC6, clamp, dt, W, H]
  norm_num [min_def, max_def]

theorem eatOne_C6 : eatOne (pelletC6 :: List.replicate 399 pellet40) pC6 =
    (pC6b, List.replicate 399 pellet40) := by
  simp only [eatOne, List.countP_cons, List.countP_replicate, List.filter_cons,
    List.filter_replicate, pelletHit_pC6_pelletC6, pelletHit_pC6_pellet40,
    Bool.not_true, Bool.not_false, if_true, if_false]
  norm_num [pC6, pC6b, PELLET_VALUE]

theorem mk1202 : mkPelletAt rngC6 1202 = pellet40 := by
  apply mkPelletAt_rngC6_zero <;> omega

theorem replenishC6 : replenish rngC6 (List.replicate 399 pellet40) 1202 =
    (List.replicate 400 pellet40, 1205) := by
  rw [replenish]
  simp only [List.length_replicate]
  rw [if_pos (by norm_num [PELLET_COUNT])]
  rw [mk1202, ← List.replicate_succ']
  rw [replenish]
  simp only [List.length_replicate]
  rw [if_neg (by norm_num [PELLET_COUNT])]

theorem pvpPass_single (k : String) (p : Player) : pvpPass [(k, p)] = ([(k, p)], []) := by
  simp [pvpPass, pvpOuter, mlookup]

theorem tickC6_room_eq :
    (tickRoom rngC6 1202
      ⟨"room-1", [("s1", pC6)], pelletC6 :: List.replicate 399 pellet40⟩).room =
      ⟨"room-1", [("s1", pC6b)], List.replicate 400 pellet40⟩ := by
  simp only [tickRoom, physPass, List.map_cons, List.map_nil, physStep_pC6,
    pelletPass, eatOne_C6, replenishC6, pvpPass_single]

theorem tickC6_k :
    (tickRoom rngC6 1202
      ⟨"room-1", [("s1", pC6)], pelletC6 :: List.replicate 399 pellet40⟩).k = 1205 := by
  simp only [tickRoom, physPass, List.map_cons, List.map_nil, physStep_pC6,
    pelletPass, eatOne_C6, replenishC6, pvpPass_single]

theorem sC6b_eq : sC6b =
    ⟨[("room-1", ⟨"room-1", [("s1", pC6b)], List.replicate 400 pellet40⟩)],
     [("s1", "room-1")], 1205⟩ := by
  rw [sC6b, sC6a_eq]
  simp only [tickServer, tickRooms, tickC6_room_eq, tickC6_k]

theorem sC6c_eq : sC6c =
    ⟨[("room-1", ⟨"room-1", [("s1", pC6)], List.replicate 400 pellet40⟩)],
     [("s1", "room-1")], 1207⟩ := by
  have hname : ((if ("Ann" : String) = "" then "Blob" else "Ann").take 12) = "Ann" := by decide
  have hmode : (if ("casual" : String) = "" then "free" else "casual") = "casual" := by decide
  have h1205 : rngC6 1205 = 0 := by simp [rngC6]
  have h1206 : rngC6 (1205 + 1) = 0 := by simp [rngC6]
  rw [sC6c, sC6b_eq]
  simp only [joinFn, getOrCreateRoomForJoin]
  rw [List.find?_cons_of_pos _ (by decide)]
  simp only [mapSet, mlookup, hname, hmode, h1205, h1206, ServerState.mk.injEq,
    Room.mk.injEq, Player.mk.injEq, Prod.mk.injEq]
  norm_num [pC6, pC6b, randIn, W, H, START_MASS]

end Blobbet

namespace Blobbet

/-- Counterexample to claim C6 (no operation reachable from external
input ever decreases a session's mass): starting from startup with stream
`rngC6`, the socket s1 joins (spawning at (200, 200), on pellet 0), one
tick raises its mass to 125 by pellet consumption, and then a second
`join` event on the same connected socket — plain external input the
handler does not guard against — rebuilds the session record, storing
mass 120 < 125 for the same session id in the same room. -/
theorem c6_counterexample :
    (playerIn sC6b "room-1" "s1").map Player.mass = some 125 ∧
    (playerIn sC6c "room-1" "s1").map Player.mass = some 120 ∧
    ¬ ((125 : ℚ) ≤ 120) := by
  refine ⟨?_, ?_, by norm_num⟩
  · rw [sC6b_eq]
    rfl
  · rw [sC6c_eq]
    rfl

/-! ### Concrete evaluation of the idle-player scenario -/

theorem sC8a_eq : sC8a =
    ⟨[("room-1", ⟨"room-1", [("s1", pC8)], List.replicate 400 pellet40⟩)],
     [("s1", "room-1")], 1202⟩ := by
  have hname : ((if ("Ann" : String) = "" then "Blob" else "Ann").take 12) = "Ann" := by decide
  have hmode : (if ("free" : String) = "" then "free" else "free") = "free" := by decide
  rw [sC8a, init0_eq]
  simp only [joinFn, getOrCreateRoomForJoin]
  rw [List.find?_cons_of_pos _ (by decide)]
  simp only [mapSet, mlookup, hname, hmode, rng0, ServerState.mk.injEq,
    Room.mk.injEq, Player.mk.injEq, Prod.mk.injEq]
  norm_num [pC8, randIn, W, H, START_MASS]

theorem pelletHit_pC8_pellet40 : pelletHit pC8 pellet40 = false := by
  simp only [pelletHit, pellet40, pC8, pelletCondB, Bool.or_eq_false_iff,
    decide_eq_false_iff_not]
  constructor <;> norm_num

theorem physStep_pC8 : physStep pC8 = pC8 := by
  simp only [physStep, pC8, clamp, dt, W, H]
  norm_num [min_def, max_def]

theorem eatOne_C8 : eatOne (List.replicate 400 pellet40) pC8 =
    (pC8, List.replicate 400 pellet40) := by
  simp only [eatOne, List.countP_replicate, List.filter_replicate,
    pelletHit_pC8_pellet40, Bool.not_false, if_true, if_false]
  norm_num [pC8, PELLET_VALUE]

theorem replenish0full : replenish rng0 (List.replicate 400 pellet40) 1202 =
    (List.replicate 400 pellet40, 1202) := by
  rw [replenish]
  simp only [List.length_replicate]
  rw [if_neg (by norm_num [PELLET_COUNT])]

theorem tickC8_room_eq :
    (tickRoom rng0 1202
      ⟨"room-1", [("s1", pC8)], List.replicate 400 pellet40⟩).room =
      ⟨"room-1", [("s1", pC8)], List.replicate 400 pellet40⟩ := by
  simp only [tickRoom, physPass, List.map_cons, List.map_nil, physStep_pC8,
    pelletPass, eatOne_C8, replenish0full, pvpPass_single]

theorem tickC8_k :
    (tickRoom rng0 1202
      ⟨"room-1", [("s1", pC8)], List.replicate 400 pellet40⟩).k = 1202 := by
  simp only [tickRoom, physPass, List.map_cons, List.map_nil, physStep_pC8,
    pelletPass, eatOne_C8, replenish0full, pvpPass_single]

theorem sC8b_eq : sC8b =
    ⟨[("room-1", ⟨"room-1", [("s1", pC8)], List.replicate 400 pellet40⟩)],
     [("s1", "room-1")], 1202⟩ := by
  rw [sC8b, sC8a_eq]
  simp only [tickServer, tickRooms, tickC8_room_eq, tickC8_k]

theorem tickC8_no_ko :
    koTargets (tickRoom rng0 1202
      ⟨"room-1", [("s1", pC8)], List.replicate 400 pellet40⟩).events = [] := by
  rw [koTargets_tickRoom]
  simp only [physPass, List.map_cons, List.map_nil, physStep_pC8, pelletPass,
    eatOne_C8, pvpPass_single]

/-- Counterexample to claim C8 (players idle at least 18 s are evicted
with reason `afk`, and players idle 15–18 s are warned): the game loop
never reads a clock and never consults `lastInputAt`.  Concretely, the
socket s1 joins at time 0 and sends no input; whenever the next tick
fires — in particular at or after 18000 ms of idleness — the session is
still in the room with its mass and `lastInputAt` untouched, and the tick
emitted no `ko` (the only kick path in the source); no `afk_warn`
message exists anywhere in the source's outbound protocol. -/
theorem c8_counterexample :
    (playerIn sC8b "room-1" "s1").map Player.lastInputAt = some 0 ∧
    (playerIn sC8b "room-1" "s1").map Player.mass = some 120 ∧
    koTargets (tickServer rng0 sC8a).2 = [] := by
  refine ⟨?_, ?_, ?_⟩
  · rw [sC8b_eq]
    rfl
  · rw [sC8b_eq]
    rfl
  · rw [sC8a_eq]
    simp only [tickServer, tickRooms]
    rw [List.append_nil]
    exact tickC8_no_ko

/-- Witness for the amended C8 at a concrete one-player room. -/
theorem c8_amended_no_afk_eviction_witness :
    ∃ p', mlookup "s1"
        (tickRoom rng0 0 ⟨"r", [("s1", testPlayer "s1" 200 200 120)], []⟩).room.players =
        some p' ∧
      (testPlayer "s1" 200 200 120).mass ≤ p'.mass ∧
      p'.lastInputAt = (testPlayer "s1" 200 200 120).lastInputAt := by
  apply c8_amended_no_afk_eviction rng0 0 ⟨"r", [("s1", testPlayer "s1" 200 200 120)], []⟩
  · intro e he
    simp only [List.mem_singleton] at he
    rw [he]
    norm_num [testPlayer]
  · simp [mlookup]
  · rw [koTargets_tickRoom]
    simp [physPass, pelletPass, eatOne, pvpPass, pvpOuter, mlookup]

end Blobbet
